import Mathlib

/-!
# sherpa-onnx (QNN fork): provider selection and provider-option validation

A shallow embedding of

* `sherpa-onnx/csrc/provider.{h,cc}`      (`Provider`, `StringToProvider`)
* `sherpa-onnx/csrc/provider-config.cc`   (`CudaConfig`, `TensorrtConfig`, `QnnConfig`,
  `ProviderConfig` and their `Validate` methods)
* `sherpa-onnx/csrc/session.cc`           (`GetSessionOptionsImpl` and the QNN option parser)

A `std::string` is a `List Char`; a `std::unordered_map<std::string, std::string>` is an
association list with overwrite-on-insert; integers are `Int` (only comparisons are made).
-/

namespace SherpaOnnx

/-- A `std::string`, as its sequence of characters. -/
abbrev Str := List Char

/-! ## provider.h / provider.cc -/

/-- The enum `Provider` of `provider.h`. -/
inductive Provider where
  | kCPU
  | kCUDA
  | kCoreML
  | kXnnpack
  | kNNAPI
  | kTRT
  | kDirectML
  | kQNN
  deriving DecidableEq, Repr

/-- The function `std::tolower` in the "C" locale: only `A`..`Z` are changed. -/
def tolower (c : Char) : Char :=
  if 65 ≤ c.toNat ∧ c.toNat ≤ 90 then Char.ofNat (c.toNat + 32) else c

/-- The function `StringToProvider` of `provider.cc`: lowercase the argument with
`std::transform`, then walk the `if`/`else if` chain. -/
def StringToProvider (s : Str) : Provider :=
  let s := s.map tolower
  if s = "cpu".toList then Provider.kCPU
  else if s = "cuda".toList then Provider.kCUDA
  else if s = "coreml".toList then Provider.kCoreML
  else if s = "xnnpack".toList then Provider.kXnnpack
  else if s = "nnapi".toList then Provider.kNNAPI
  else if s = "trt".toList then Provider.kTRT
  else if s = "directml".toList then Provider.kDirectML
  else if s = "qnn".toList then Provider.kQNN
  else Provider.kCPU

/-- The name the specification gives to each provider tag. -/
def providerName : Provider → Str
  | Provider.kCPU => "cpu".toList
  | Provider.kCUDA => "cuda".toList
  | Provider.kCoreML => "coreml".toList
  | Provider.kXnnpack => "xnnpack".toList
  | Provider.kNNAPI => "nnapi".toList
  | Provider.kTRT => "trt".toList
  | Provider.kDirectML => "directml".toList
  | Provider.kQNN => "qnn".toList

/-! ## provider-config.cc -/

/-- The struct `CudaConfig`. -/
structure CudaConfig where
  cudnn_conv_algo_search : Int
  deriving DecidableEq, Repr

/-- The method `CudaConfig::Validate`. -/
def CudaConfig.Validate (c : CudaConfig) : Bool :=
  if c.cudnn_conv_algo_search < 1 ∨ c.cudnn_conv_algo_search > 3 then false else true

/-- The struct `TensorrtConfig`. -/
structure TensorrtConfig where
  trt_max_workspace_size : Int
  trt_max_partition_iterations : Int
  trt_min_subgraph_size : Int
  trt_fp16_enable : Bool
  trt_detailed_build_log : Bool
  trt_engine_cache_enable : Bool
  trt_timing_cache_enable : Bool
  trt_engine_cache_path : Str
  trt_timing_cache_path : Str
  trt_dump_subgraphs : Bool
  deriving DecidableEq, Repr

/-- The method `TensorrtConfig::Validate`: three checks, each an early `return false`. -/
def TensorrtConfig.Validate (c : TensorrtConfig) : Bool :=
  if c.trt_max_workspace_size < 0 then false
  else if c.trt_max_partition_iterations < 0 then false
  else if c.trt_min_subgraph_size < 0 then false
  else true

/-- The struct `QnnConfig`: one free-form string. -/
structure QnnConfig where
  json_config : Str
  deriving DecidableEq, Repr

/-- The method `std::string::substr(pos, len)`: it throws `std::out_of_range` (here `none`)
when `pos` is beyond the size, and otherwise gives at most `len` characters from `pos`. -/
def substr (s : Str) (pos len : Nat) : Option Str :=
  if pos > s.length then none else some ((s.drop pos).take len)

/-- The table `valid_options` of `QnnConfig::Validate`: each supported option with its
permitted values, the empty list meaning that any value is allowed. -/
def valid_options : List (Str × List Str) :=
  [ ("backend_path".toList, []),
    ("profiling_level".toList, ["off".toList, "basic".toList, "detailed".toList]),
    ("profiling_file_path".toList, []),
    ("rpc_control_latency".toList, []),
    ("vtcm_mb".toList, []),
    ("htp_performance_mode".toList,
      ["burst".toList, "balanced".toList, "default".toList, "high_performance".toList,
       "high_power_saver".toList, "low_balanced".toList, "extreme_power_saver".toList,
       "low_power_saver".toList, "power_saver".toList, "sustained_high_performance".toList]),
    ("qnn_saver_path".toList, []),
    ("qnn_context_priority".toList,
      ["low".toList, "normal".toList, "normal_high".toList, "high".toList]),
    ("htp_graph_finalization_optimization_mode".toList,
      ["0".toList, "1".toList, "2".toList, "3".toList]),
    ("soc_model".toList, []),
    ("htp_arch".toList,
      ["0".toList, "68".toList, "69".toList, "73".toList, "75".toList, "79".toList]),
    ("device_id".toList, []),
    ("enable_htp_fp16_precision".toList, ["0".toList, "1".toList]),
    ("enable_htp_weight_sharing".toList, ["0".toList, "1".toList]),
    ("offload_graph_io_quantization".toList, ["0".toList, "1".toList]),
    ("enable_htp_spill_fill_buffer".toList, ["0".toList, "1".toList]),
    ("enable_htp_shared_memory_allocator".toList, ["0".toList, "1".toList]),
    ("dump_json_qnn_graph".toList, ["0".toList, "1".toList]),
    ("json_qnn_graph_dir".toList, []) ]

/-- The block "Validate key and value", which `QnnConfig::Validate` runs at every unquoted
comma and once more after the loop: `false` stands for its two `return false`. -/
def checkKeyValue (key value : Str) : Bool :=
  match valid_options.lookup key with
  | none => false
  | some valid_values =>
    if valid_values ≠ [] ∧ value ∉ valid_values then false else true

/-- The local enum `State` of `QnnConfig::Validate`. -/
inductive State where
  | KEY
  | COLON
  | VALUE
  | COMMA
  deriving DecidableEq, Repr

/-- The local variables of the scanning loop of `QnnConfig::Validate`. -/
structure Scan where
  in_string : Bool
  key : Str
  value : Str
  current_token : Str
  state : State
  deriving DecidableEq, Repr

/-- The locals as they are before the loop. -/
def Scan.init : Scan :=
  { in_string := false, key := [], value := [], current_token := [], state := State.KEY }

/-- The loop `for (size_t i = 0; i < content.size(); ++i)` of `QnnConfig::Validate`, run on
the characters still to be read; `none` stands for a `return false` inside the loop. -/
def scanLoop : List Char → Scan → Option Scan
  | [], st => some st
  | c :: cs, st =>
    if c = '"' then
      scanLoop cs { st with in_string := !st.in_string }
    else if st.in_string = false ∧ (c = ' ' ∨ c = '\t' ∨ c = '\n' ∨ c = '\r') then
      scanLoop cs st
    else if st.in_string = true then
      scanLoop cs { st with current_token := st.current_token ++ [c] }
    else if c = ':' then
      if st.state ≠ State.KEY then none
      else scanLoop cs
        { st with key := st.current_token, current_token := [], state := State.VALUE }
    else if c = ',' then
      if st.state ≠ State.VALUE then none
      else if checkKeyValue st.key st.current_token = false then none
      else scanLoop cs
        { st with value := st.current_token, current_token := [], state := State.KEY }
    else
      scanLoop cs { st with current_token := st.current_token ++ [c] }

/-- The block "Handle last key-value pair" of `QnnConfig::Validate`, on what the loop left:
a `return false` of the loop stays `false`, a non-empty last token is checked as the value
of the last key, and an empty one is not checked at all. -/
def handleLastPair : Option Scan → Bool
  | none => false
  | some st =>
    if st.current_token ≠ [] then checkKeyValue st.key st.current_token else true

/-- The method `QnnConfig::Validate`. An empty `json_config` is valid; otherwise the blob
must start with an opening and end with a closing brace, the body is scanned by `scanLoop`,
and the last pair is handled after the loop. An exception in the `try` block (here only
`substr`) gives `false`. -/
def QnnConfig.Validate (q : QnnConfig) : Bool :=
  if q.json_config ≠ [] then
    if q.json_config.head? ≠ some '{' ∨ q.json_config.getLast? ≠ some '}' then false
    else
      match substr q.json_config 1 (q.json_config.length - 2) with
      | none => false
      | some content => handleLastPair (scanLoop content Scan.init)
  else true

/-- The struct `ProviderConfig`. -/
structure ProviderConfig where
  trt_config : TensorrtConfig
  cuda_config : CudaConfig
  qnn_config : QnnConfig
  provider : Str
  device : Int
  deriving DecidableEq, Repr

/-- The method `ProviderConfig::Validate`. -/
def ProviderConfig.Validate (c : ProviderConfig) : Bool :=
  if c.device < 0 then false
  else if c.provider = "cuda".toList ∧ c.cuda_config.Validate = false then false
  else if c.provider = "trt".toList ∧ c.trt_config.Validate = false then false
  else if c.provider = "qnn".toList ∧ c.qnn_config.Validate = false then false
  else true

/-! ## session.cc -/

/-- A `std::unordered_map<std::string, std::string>`, as an association list that holds
each key once. -/
abbrev Options := List (Str × Str)

/-- The assignment `options[key] = value`: overwrite the binding of `key`, or add one. -/
def Options.set : Options → Str → Str → Options
  | [], key, value => [(key, value)]
  | (k, v) :: rest, key, value =>
    if k = key then (key, value) :: rest else (k, v) :: Options.set rest key value

/-- The method `std::string::find(c, pos)`: the first index at or after `pos` that holds
`c`, or `npos` (here `none`). -/
def find (s : Str) (c : Char) (pos : Nat) : Option Nat :=
  if (s.drop pos).indexOf c < (s.drop pos).length then some (pos + (s.drop pos).indexOf c)
  else none

/-- What the option-parsing loop of the QNN branch ends with. -/
inductive ParseResult where
  /-- The loop was left through its condition or a `break`. -/
  | ok (options : Options)
  /-- A `substr` threw `std::out_of_range`. -/
  | out_of_range
  /-- The iteration budget of the model ran out. -/
  | out_of_fuel
  deriving DecidableEq, Repr

/-- The loop `while (pos < content.size())` of the QNN branch of `GetSessionOptionsImpl`,
with an iteration budget. Every `npos` test is a `break`. -/
def parseLoop : Nat → Str → Nat → Options → ParseResult
  | 0, _, _, _ => ParseResult.out_of_fuel
  | fuel + 1, content, pos, options =>
    if pos < content.length then
      match find content '"' pos with
      | none => ParseResult.ok options
      | some key_start =>
        match find content '"' (key_start + 1) with
        | none => ParseResult.ok options
        | some key_end =>
          match find content ':' key_end with
          | none => ParseResult.ok options
          | some colon =>
            match find content '"' colon with
            | none => ParseResult.ok options
            | some value_start =>
              match find content '"' (value_start + 1) with
              | none => ParseResult.ok options
              | some value_end =>
                match substr content (key_start + 1) (key_end - key_start - 1),
                      substr content (value_start + 1) (value_end - value_start - 1) with
                | some key, some value =>
                  match find content ',' value_end with
                  | none => ParseResult.ok (options.set key value)
                  | some pos => parseLoop fuel content (pos + 1) (options.set key value)
                | _, _ => ParseResult.out_of_range
    else ParseResult.ok options

/-- The block "Parse the JSON string to populate options" of the QNN branch: a blob bounded
by braces is stripped of them and handed to the loop, any other blob is only logged as
invalid and leaves the map empty. Each iteration moves `pos` forward, so a budget of one
more than the length of the body is never used up. -/
def parseQnnOptions (json_config : Str) : ParseResult :=
  if json_config.head? = some '{' ∧ json_config.getLast? = some '}' then
    match substr json_config 1 (json_config.length - 2) with
    | none => ParseResult.out_of_range
    | some content => parseLoop (content.length + 1) content 0 []
  else ParseResult.ok []

/-- The enum `ExecutionMode` of ONNX Runtime. -/
inductive ExecutionMode where
  | ORT_SEQUENTIAL
  | ORT_PARALLEL
  deriving DecidableEq, Repr

/-- One execution provider attached to the session options, with the arguments it was
attached with. -/
inductive AttachedProvider where
  /-- The call `AppendExecutionProvider("XNNPACK")`. -/
  | XNNPACK
  /-- The call `AppendExecutionProvider_TensorRT_V2`, with the option keys and values. -/
  | TensorRT (options : List (Str × Str))
  /-- The call `AppendExecutionProvider_CUDA`, with `device_id` and
  `cudnn_conv_algo_search`. -/
  | CUDA (device_id : Int) (cudnn_conv_algo_search : Int)
  /-- The call `OrtSessionOptionsAppendExecutionProvider_DML`, with `device_id`. -/
  | DML (device_id : Int)
  /-- The call `OrtSessionOptionsAppendExecutionProvider_CoreML`, with `coreml_flags`. -/
  | CoreML (coreml_flags : Nat)
  /-- The call `OrtSessionOptionsAppendExecutionProvider_Nnapi`, with `nnapi_flags`. -/
  | Nnapi (nnapi_flags : Nat)
  /-- The call `AppendExecutionProvider("QNN", options)`. -/
  | QNN (options : Options)
  deriving DecidableEq, Repr

/-- The state of an `Ort::SessionOptions` that `GetSessionOptionsImpl` can change. -/
structure SessionOptions where
  intra_op_num_threads : Int
  inter_op_num_threads : Int
  providers : List AttachedProvider
  mem_pattern : Bool
  execution_mode : ExecutionMode
  deriving DecidableEq, Repr

/-- A default-constructed `Ort::SessionOptions`: nothing attached, and the defaults of ONNX
Runtime for the thread counts (0, the runtime chooses), the memory pattern (enabled) and the
execution mode (sequential). -/
def SessionOptions.fresh : SessionOptions :=
  { intra_op_num_threads := 0, inter_op_num_threads := 0, providers := [],
    mem_pattern := true, execution_mode := ExecutionMode.ORT_SEQUENTIAL }

/-- What `GetSessionOptionsImpl` depends on besides its arguments: the result of
`Ort::GetAvailableProviders()`, the preprocessor conditions, and whether the runtime
manages to attach a backend when asked to. -/
structure Env where
  /-- The result of `Ort::GetAvailableProviders()`. -/
  available_providers : List Str
  /-- The condition `ORT_API_VERSION >= 12`. -/
  ort_api_version_ge_12 : Bool
  /-- The condition `defined(_WIN32) && SHERPA_ONNX_ENABLE_DIRECTML == 1`. -/
  win32_directml : Bool
  /-- The condition `defined(__APPLE__)`. -/
  apple : Bool
  /-- The condition `defined(SHERPA_ONNX_ENABLE_NNAPI)`. -/
  enable_nnapi : Bool
  /-- Whether attaching the backend of that tag succeeds. -/
  attach_ok : Provider → Bool

/-- How a call of `GetSessionOptionsImpl` ends. -/
inductive Outcome where
  /-- The statement `return sess_opts`. -/
  | returned (sess_opts : SessionOptions)
  /-- The call `exit(1)`. -/
  | exited (code : Nat)
  /-- An exception of the runtime that no `try` block of the function catches. -/
  | threw
  /-- The iteration budget of the option parser ran out. -/
  | diverged
  deriving DecidableEq, Repr

/-- An attachment through the C++ methods of `Ort::SessionOptions`
(`AppendExecutionProvider`, `AppendExecutionProvider_CUDA`,
`AppendExecutionProvider_TensorRT_V2`): the provider is added, or the method throws
(here `none`). -/
def AppendExecutionProvider (env : Env) (sess_opts : SessionOptions) (tag : Provider)
    (ep : AttachedProvider) : Option SessionOptions :=
  if env.attach_ok tag then some { sess_opts with providers := sess_opts.providers ++ [ep] }
  else none

/-- An attachment through the C functions `OrtSessionOptionsAppendExecutionProvider_*`: the
provider is added and the status is null (`true`), or nothing is added and a status is
returned (`false`). -/
def OrtSessionOptionsAppendExecutionProvider (env : Env) (sess_opts : SessionOptions)
    (tag : Provider) (ep : AttachedProvider) : SessionOptions × Bool :=
  if env.attach_ok tag then ({ sess_opts with providers := sess_opts.providers ++ [ep] }, true)
  else (sess_opts, false)

/-- The function `std::to_string` on an integer. -/
def to_string (i : Int) : Str := (toString i).toList

/-- The function `std::to_string` on a `bool`, which is promoted to `int`. -/
def to_string_bool (b : Bool) : Str := to_string (if b then 1 else 0)

/-- The vector `trt_options` of the TensorRT branch. -/
def trt_options (provider_config : ProviderConfig) : List (Str × Str) :=
  let trt_config := provider_config.trt_config
  [ ("device_id".toList, to_string provider_config.device),
    ("trt_max_workspace_size".toList, to_string trt_config.trt_max_workspace_size),
    ("trt_max_partition_iterations".toList,
      to_string trt_config.trt_max_partition_iterations),
    ("trt_min_subgraph_size".toList, to_string trt_config.trt_min_subgraph_size),
    ("trt_fp16_enable".toList, to_string_bool trt_config.trt_fp16_enable),
    ("trt_detailed_build_log".toList, to_string_bool trt_config.trt_detailed_build_log),
    ("trt_engine_cache_enable".toList, to_string_bool trt_config.trt_engine_cache_enable),
    ("trt_engine_cache_path".toList, trt_config.trt_engine_cache_path),
    ("trt_timing_cache_enable".toList, to_string_bool trt_config.trt_timing_cache_enable),
    ("trt_timing_cache_path".toList, trt_config.trt_timing_cache_path),
    ("trt_dump_subgraphs".toList, to_string_bool trt_config.trt_dump_subgraphs) ]

/-- The value of `OrtCudnnConvAlgoSearchHeuristic` in the enum `OrtCudnnConvAlgoSearch`. -/
def OrtCudnnConvAlgoSearchHeuristic : Int := 1

/-- The `case Provider::kCUDA` of `GetSessionOptionsImpl`, which the TensorRT case falls
through into. -/
def caseCUDA (env : Env) (sess_opts : SessionOptions)
    (provider_config : Option ProviderConfig) : Outcome :=
  if "CUDAExecutionProvider".toList ∈ env.available_providers then
    let options : AttachedProvider :=
      match provider_config with
      | some cfg => AttachedProvider.CUDA cfg.device cfg.cuda_config.cudnn_conv_algo_search
      | none => AttachedProvider.CUDA 0 OrtCudnnConvAlgoSearchHeuristic
    match AppendExecutionProvider env sess_opts Provider.kCUDA options with
    | some sess_opts => Outcome.returned sess_opts
    | none => Outcome.threw
  else Outcome.returned sess_opts

/-- The `case Provider::kQNN` of `GetSessionOptionsImpl`. Both `try` blocks catch
`std::exception` and leave the session options as they were. -/
def caseQNN (env : Env) (sess_opts : SessionOptions)
    (provider_config : Option ProviderConfig) : Outcome :=
  match provider_config with
  | none => Outcome.returned sess_opts
  | some cfg =>
    let qnn_config := cfg.qnn_config
    if "QNNExecutionProvider".toList ∈ env.available_providers then
      if qnn_config.json_config ≠ [] then
        match parseQnnOptions qnn_config.json_config with
        | ParseResult.out_of_fuel => Outcome.diverged
        | ParseResult.out_of_range => Outcome.returned sess_opts
        | ParseResult.ok options =>
          match AppendExecutionProvider env sess_opts Provider.kQNN
              (AttachedProvider.QNN options) with
          | some sess_opts => Outcome.returned sess_opts
          | none => Outcome.returned sess_opts
      else
        match AppendExecutionProvider env sess_opts Provider.kQNN
            (AttachedProvider.QNN []) with
        | some sess_opts => Outcome.returned sess_opts
        | none => Outcome.returned sess_opts
    else Outcome.returned sess_opts

/-- The function `GetSessionOptionsImpl`; a null `provider_config` is `none`. In the
TensorRT case the statuses of `CreateTensorRTProviderOptions` and
`UpdateTensorRTProviderOptions` are only logged, after the attachment has been made. -/
def GetSessionOptionsImpl (env : Env) (num_threads : Int) (provider_str : Str)
    (provider_config : Option ProviderConfig) : Outcome :=
  let p := StringToProvider provider_str
  let sess_opts := SessionOptions.fresh
  let sess_opts := { sess_opts with intra_op_num_threads := num_threads }
  let sess_opts := { sess_opts with inter_op_num_threads := num_threads }
  match p with
  | Provider.kCPU => Outcome.returned sess_opts
  | Provider.kXnnpack =>
    if env.ort_api_version_ge_12 then
      if "XnnpackExecutionProvider".toList ∈ env.available_providers then
        match AppendExecutionProvider env sess_opts Provider.kXnnpack
            AttachedProvider.XNNPACK with
        | some sess_opts => Outcome.returned sess_opts
        | none => Outcome.threw
      else Outcome.returned sess_opts
    else Outcome.returned sess_opts
  | Provider.kTRT =>
    match provider_config with
    | none => Outcome.exited 1
    | some cfg =>
      if "TensorrtExecutionProvider".toList ∈ env.available_providers then
        match AppendExecutionProvider env sess_opts Provider.kTRT
            (AttachedProvider.TensorRT (trt_options cfg)) with
        | some sess_opts => caseCUDA env sess_opts provider_config
        | none => Outcome.threw
      else caseCUDA env sess_opts provider_config
  | Provider.kCUDA => caseCUDA env sess_opts provider_config
  | Provider.kDirectML =>
    if env.win32_directml then
      let sess_opts := { sess_opts with mem_pattern := false }
      let sess_opts := { sess_opts with execution_mode := ExecutionMode.ORT_SEQUENTIAL }
      let device_id : Int := 0
      Outcome.returned (OrtSessionOptionsAppendExecutionProvider env sess_opts
        Provider.kDirectML (AttachedProvider.DML device_id)).1
    else Outcome.returned sess_opts
  | Provider.kCoreML =>
    if env.apple then
      let coreml_flags : Nat := 0
      Outcome.returned (OrtSessionOptionsAppendExecutionProvider env sess_opts
        Provider.kCoreML (AttachedProvider.CoreML coreml_flags)).1
    else Outcome.returned sess_opts
  | Provider.kNNAPI =>
    if env.enable_nnapi then
      let nnapi_flags : Nat := 0
      Outcome.returned (OrtSessionOptionsAppendExecutionProvider env sess_opts
        Provider.kNNAPI (AttachedProvider.Nnapi nnapi_flags)).1
    else Outcome.returned sess_opts
  | Provider.kQNN => caseQNN env sess_opts provider_config

/-- The fields of the struct `OnlineModelConfig` that `session.cc` reads; the struct is
declared in a header outside this excerpt. -/
structure OnlineModelConfig where
  provider_config : ProviderConfig
  num_threads : Int
  deriving DecidableEq, Repr

/-- The overload `GetSessionOptions(const OnlineModelConfig &, const std::string &)`: for a
transducer only the encoder runs with TensorRT, decoder and joiner run with CUDA. -/
def GetSessionOptions_OnlineModelConfig_model_type (env : Env) (config : OnlineModelConfig)
    (model_type : Str) : Outcome :=
  if config.provider_config.provider = "trt".toList ∧
      (model_type = "decoder".toList ∨ model_type = "joiner".toList) then
    GetSessionOptionsImpl env config.num_threads "cuda".toList (some config.provider_config)
  else
    GetSessionOptionsImpl env config.num_threads config.provider_config.provider
      (some config.provider_config)

/-! ## offline-tts-model-config.h / offline-tts-model-config.cc -/

/-- The struct `OfflineTtsModelConfig`. The option groups `vits`, `matcha` and `kokoro` are
declared in headers outside this excerpt, so their types are parameters. -/
structure OfflineTtsModelConfig (Vits Matcha Kokoro : Type) where
  vits : Vits
  matcha : Matcha
  kokoro : Kokoro
  provider_config : ProviderConfig
  num_threads : Int
  debug : Bool
  provider : Str

/-- What `OfflineTtsModelConfig::Validate` uses of the three option groups: the fields
`vits.model` and `matcha.acoustic_model`, and the three methods `Validate`. -/
structure OfflineTtsGroups (Vits Matcha Kokoro : Type) where
  vits_model : Vits → Str
  vits_Validate : Vits → Bool
  matcha_acoustic_model : Matcha → Str
  matcha_Validate : Matcha → Bool
  kokoro_Validate : Kokoro → Bool

/-- The method `OfflineTtsModelConfig::Validate`. -/
def OfflineTtsModelConfig.Validate {Vits Matcha Kokoro : Type}
    (groups : OfflineTtsGroups Vits Matcha Kokoro)
    (c : OfflineTtsModelConfig Vits Matcha Kokoro) : Bool :=
  if c.num_threads < 1 then false
  else if groups.vits_model c.vits ≠ [] then groups.vits_Validate c.vits
  else if groups.matcha_acoustic_model c.matcha ≠ [] then groups.matcha_Validate c.matcha
  else if c.provider_config.Validate = false then false
  else groups.kokoro_Validate c.kokoro

/-- The overload `GetSessionOptions(const OfflineTtsModelConfig &)` of `session.cc`. -/
def GetSessionOptions_OfflineTtsModelConfig {Vits Matcha Kokoro : Type} (env : Env)
    (config : OfflineTtsModelConfig Vits Matcha Kokoro) : Outcome :=
  if config.provider = "qnn".toList ∧ config.provider_config.qnn_config.json_config ≠ [] then
    GetSessionOptionsImpl env config.num_threads config.provider (some config.provider_config)
  else if (config.provider = "trt".toList ∨ config.provider = "cuda".toList) ∧
      config.provider_config.device ≠ 0 then
    GetSessionOptionsImpl env config.num_threads config.provider (some config.provider_config)
  else
    GetSessionOptionsImpl env config.num_threads config.provider none

/-! ## Vocabulary of the specification -/

/-- The session options of the CPU-only configuration with the given thread count. -/
def cpuOnly (num_threads : Int) : SessionOptions :=
  { intra_op_num_threads := num_threads, inter_op_num_threads := num_threads,
    providers := [], mem_pattern := true, execution_mode := ExecutionMode.ORT_SEQUENTIAL }

/-- A provider config with the given provider name, device 0, and the defaults of the
option groups. -/
def sampleConfig (provider : Str) (json_config : Str) : ProviderConfig :=
  { trt_config :=
      { trt_max_workspace_size := 2147483647, trt_max_partition_iterations := 10,
        trt_min_subgraph_size := 5, trt_fp16_enable := true,
        trt_detailed_build_log := false, trt_engine_cache_enable := true,
        trt_timing_cache_enable := true, trt_engine_cache_path := ".".toList,
        trt_timing_cache_path := ".".toList, trt_dump_subgraphs := false },
    cuda_config := { cudnn_conv_algo_search := 1 },
    qnn_config := { json_config := json_config },
    provider := provider, device := 0 }

/-- Option groups that are just their model path: VITS and Kokoro always valid, Matcha
never. -/
def sampleGroups : OfflineTtsGroups Str Str Str :=
  { vits_model := fun m => m, vits_Validate := fun _ => true,
    matcha_acoustic_model := fun m => m, matcha_Validate := fun _ => false,
    kokoro_Validate := fun _ => true }

/-- A text-to-speech config over `sampleGroups` with two threads. -/
def sampleTts (vits matcha provider : Str) (provider_config : ProviderConfig) :
    OfflineTtsModelConfig Str Str Str :=
  { vits := vits, matcha := matcha, kokoro := [], provider_config := provider_config,
    num_threads := 2, debug := false, provider := provider }

/-- A machine with TensorRT and CUDA, on which every attachment succeeds. -/
def envTrtCuda : Env :=
  { available_providers :=
      ["TensorrtExecutionProvider".toList, "CUDAExecutionProvider".toList,
       "CPUExecutionProvider".toList],
    ort_api_version_ge_12 := true, win32_directml := false, apple := false,
    enable_nnapi := false, attach_ok := fun _ => true }

/-- A string between double quotes. -/
def quoted (s : Str) : Str := '"' :: s ++ ['"']

/-- One pair in the quoted form `"key":"value"`. -/
def renderPair (kv : Str × Str) : Str := quoted kv.1 ++ ':' :: quoted kv.2

/-- Pairs in the quoted form, separated by commas. -/
def renderPairs : List (Str × Str) → Str
  | [] => []
  | [kv] => renderPair kv
  | kv :: rest => renderPair kv ++ ',' :: renderPairs rest

/-- The blob `{"k_1":"v_1",...,"k_n":"v_n"}`. -/
def renderBlob (pairs : List (Str × Str)) : Str := '{' :: renderPairs pairs ++ ['}']

/-- Keys and values free of the double-quote character. -/
def quoteFree (pairs : List (Str × Str)) : Prop :=
  ∀ kv ∈ pairs, '"' ∉ kv.1 ∧ '"' ∉ kv.2

instance (pairs : List (Str × Str)) : Decidable (quoteFree pairs) := by
  unfold quoteFree
  infer_instance

/-- The open-domain keys named by the specification. -/
def open_domain_keys : List Str :=
  [ "backend_path".toList, "profiling_file_path".toList, "rpc_control_latency".toList,
    "vtcm_mb".toList, "qnn_saver_path".toList, "soc_model".toList, "device_id".toList,
    "json_qnn_graph_dir".toList ]

/-- The characters that the scan of `QnnConfig::Validate` skips outside quotes. -/
def whitespace : List Char := [' ', '\t', '\n', '\r']

/-- Pairs in the quoted form, each one followed by a comma. -/
def renderPairsComma : List (Str × Str) → Str
  | [] => []
  | kv :: rest => renderPair kv ++ ',' :: renderPairsComma rest

/-- What `QnnConfig::Validate` checks on a blob of pairs in the quoted form: every pair
that is followed by a comma, and the last pair only when its value is not empty. -/
def checkedPairs : List (Str × Str) → Bool
  | [] => true
  | [kv] => if kv.2 ≠ [] then checkKeyValue kv.1 kv.2 else true
  | kv :: rest => checkKeyValue kv.1 kv.2 && checkedPairs rest

/-- The value of the last occurrence of `key` in a list of pairs. -/
def lastValue : List (Str × Str) → Str → Option Str
  | [], _ => none
  | kv :: rest, key =>
    match lastValue rest key with
    | some v => some v
    | none => if kv.1 = key then some kv.2 else none

/-- The map that results from the assignments `options[k_i] = v_i`, made in order. -/
def assignAll (options : Options) (pairs : List (Str × Str)) : Options :=
  pairs.foldl (fun m kv => m.set kv.1 kv.2) options

/-- The specification's "allow-listed": the key is a supported QNN option, and the value is
in the allow-list of the key when that list is not empty. -/
def allowListed (key value : Str) : Prop :=
  ∃ valid_values, valid_options.lookup key = some valid_values ∧
    (valid_values = [] ∨ value ∈ valid_values)

/-! ## Theorems -/

/-- C1: `StringToProvider` is total and case-insensitive. For every string `s` the result is
the tag whose name equals the ASCII-lowercased `s`, it is CPU when the lowercased `s` is none
of the eight names, and two strings with the same lowercased image get the same tag. -/
theorem StringToProvider_total_case_insensitive (s : Str) :
    (∀ p : Provider, s.map tolower = providerName p → StringToProvider s = p) ∧
    ((∀ p : Provider, s.map tolower ≠ providerName p) → StringToProvider s = Provider.kCPU) ∧
    (∀ t : Str, t.map tolower = s.map tolower → StringToProvider t = StringToProvider s) := by
  refine ⟨?_, ?_, ?_⟩
  · intro p hp
    cases p <;> simp only [providerName] at hp <;> simp only [StringToProvider, hp] <;> decide
  · intro h
    have h0 := h Provider.kCPU
    have h1 := h Provider.kCUDA
    have h2 := h Provider.kCoreML
    have h3 := h Provider.kXnnpack
    have h4 := h Provider.kNNAPI
    have h5 := h Provider.kTRT
    have h6 := h Provider.kDirectML
    have h7 := h Provider.kQNN
    simp only [providerName] at h0 h1 h2 h3 h4 h5 h6 h7
    simp only [StringToProvider, h0, h1, h2, h3, h4, h5, h6, h7, if_false]
  · intro t ht
    simp only [StringToProvider, ht]

/-- Witness for C1 at `"CuDa"`, `"gpu"` and `"QNN"`/`"qnn"`. -/
theorem StringToProvider_total_case_insensitive_witness :
    StringToProvider "CuDa".toList = Provider.kCUDA ∧
    StringToProvider "gpu".toList = Provider.kCPU ∧
    StringToProvider "QNN".toList = StringToProvider "qnn".toList :=
  ⟨(StringToProvider_total_case_insensitive "CuDa".toList).1 Provider.kCUDA (by decide),
   (StringToProvider_total_case_insensitive "gpu".toList).2.1
      (by intro p; cases p <;> decide),
   (StringToProvider_total_case_insensitive "qnn".toList).2.2 "QNN".toList (by decide)⟩

/-! ### The option parser never runs out of its budget -/

theorem find_ge {s : Str} {c : Char} {pos i : Nat} (h : find s c pos = some i) : pos ≤ i := by
  unfold find at h
  split at h
  · simp only [Option.some.injEq] at h
    omega
  · exact absurd h (by simp)

theorem find_lt_length {s : Str} {c : Char} {pos i : Nat} (h : find s c pos = some i) :
    i < s.length := by
  unfold find at h
  split at h
  · next hlt =>
    simp only [Option.some.injEq] at h
    simp only [List.length_drop] at hlt
    omega
  · exact absurd h (by simp)

theorem parseLoop_ne_out_of_fuel (fuel : Nat) (content : Str) :
    ∀ (pos : Nat) (options : Options), content.length - pos < fuel →
      parseLoop fuel content pos options ≠ ParseResult.out_of_fuel := by
  induction fuel with
  | zero => intro pos options h; omega
  | succ fuel ih =>
    intro pos options h
    unfold parseLoop
    split
    · next hpos =>
      split
      · simp
      · next key_start h1 =>
        split
        · simp
        · next key_end h2 =>
          split
          · simp
          · next colon h3 =>
            split
            · simp
            · next value_start h4 =>
              split
              · simp
              · next value_end h5 =>
                split
                · split
                  · simp
                  · next pos1 h6 =>
                    apply ih
                    have := find_ge h1
                    have := find_ge h2
                    have := find_ge h3
                    have := find_ge h4
                    have := find_ge h5
                    have := find_ge h6
                    omega
                · simp
    · simp

theorem parseQnnOptions_ne_out_of_fuel (json_config : Str) :
    parseQnnOptions json_config ≠ ParseResult.out_of_fuel := by
  unfold parseQnnOptions
  split
  · split
    · simp
    · exact parseLoop_ne_out_of_fuel _ _ _ _ (by omega)
  · simp

/-! ### The fallback invariant -/

/-- A failed DirectML attachment on a DirectML build leaves the memory pattern disabled:
the result is the CPU-only configuration except for that flag. -/
theorem GetSessionOptionsImpl_directml_attach_failure (env : Env) (num_threads : Int)
    (provider_config : Option ProviderConfig) (hplatform : env.win32_directml = true)
    (hfail : env.attach_ok Provider.kDirectML = false) :
    GetSessionOptionsImpl env num_threads "directml".toList provider_config =
      Outcome.returned { cpuOnly num_threads with mem_pattern := false } := by
  have hp : StringToProvider "directml".toList = Provider.kDirectML := by decide
  simp only [GetSessionOptionsImpl, hp, hplatform, if_true,
    OrtSessionOptionsAppendExecutionProvider, hfail]
  rfl

/-! ### `QnnConfig::Validate`: the brace check -/

/-- C6: `QnnConfig::Validate` rejects blobs not bounded by braces. Every non-empty
`json_config` whose first character is not an opening brace or whose last character is not
a closing brace is rejected; so is every one-character blob, and every blob that starts or
ends with a whitespace character. -/
theorem QnnConfig_Validate_rejects_unbounded (json_config : Str) :
    (json_config ≠ [] →
      (json_config.head? ≠ some '{' ∨ json_config.getLast? ≠ some '}') →
      QnnConfig.Validate ⟨json_config⟩ = false) ∧
    (json_config.length = 1 → QnnConfig.Validate ⟨json_config⟩ = false) ∧
    (∀ c : Char, c = ' ' ∨ c = '\t' ∨ c = '\n' ∨ c = '\r' →
      QnnConfig.Validate ⟨c :: json_config⟩ = false ∧
      QnnConfig.Validate ⟨json_config ++ [c]⟩ = false) := by
  have main : ∀ j : Str, j ≠ [] → (j.head? ≠ some '{' ∨ j.getLast? ≠ some '}') →
      QnnConfig.Validate ⟨j⟩ = false := by
    intro j hne h
    simp only [QnnConfig.Validate, if_pos hne, if_pos h]
  refine ⟨main json_config, ?_, ?_⟩
  · intro hlen
    match json_config, hlen with
    | [c], _ =>
      apply main [c] (by simp)
      by_cases hc : c = '{'
      · right
        subst hc
        decide
      · left
        simpa using hc
  · intro c hc
    constructor
    · apply main _ (by simp)
      left
      rcases hc with h | h | h | h <;> subst h <;> simp
    · apply main _ (by simp)
      right
      rcases hc with h | h | h | h <;> subst h <;> simp

/-- Witness for C6 at the blobs `"backend_path":"x"` (no braces), `{` and ` {}`. -/
theorem QnnConfig_Validate_rejects_unbounded_witness :
    QnnConfig.Validate ⟨"\"backend_path\":\"x\"".toList⟩ = false ∧
    QnnConfig.Validate ⟨"\x7b".toList⟩ = false ∧
    QnnConfig.Validate ⟨' ' :: "\x7b\x7d".toList⟩ = false :=
  ⟨(QnnConfig_Validate_rejects_unbounded "\"backend_path\":\"x\"".toList).1 (by decide)
      (by decide),
   (QnnConfig_Validate_rejects_unbounded "\x7b".toList).2.1 (by decide),
   ((QnnConfig_Validate_rejects_unbounded "\x7b\x7d".toList).2.2 ' ' (Or.inl rfl)).1⟩

/-! ### `ProviderConfig::Validate` -/

/-- C10: `ProviderConfig::Validate` returns true if and only if `device >= 0`, and
`provider == "cuda"` implies `1 <= cudnn_conv_algo_search <= 3`, and `provider == "trt"`
implies that the three TensorRT sizes are `>= 0`, and `provider == "qnn"` implies
`QnnConfig::Validate`; two configs with the same device and provider that agree on the
option group their provider names get the same result. -/
theorem ProviderConfig_Validate_iff (c c' : ProviderConfig) :
    (c.Validate = true ↔
      0 ≤ c.device ∧
      (c.provider = "cuda".toList →
        1 ≤ c.cuda_config.cudnn_conv_algo_search ∧ c.cuda_config.cudnn_conv_algo_search ≤ 3) ∧
      (c.provider = "trt".toList →
        0 ≤ c.trt_config.trt_max_workspace_size ∧
        0 ≤ c.trt_config.trt_max_partition_iterations ∧
        0 ≤ c.trt_config.trt_min_subgraph_size) ∧
      (c.provider = "qnn".toList → c.qnn_config.Validate = true)) ∧
    (c.device = c'.device → c.provider = c'.provider →
      (c.provider = "cuda".toList → c.cuda_config = c'.cuda_config) →
      (c.provider = "trt".toList → c.trt_config = c'.trt_config) →
      (c.provider = "qnn".toList → c.qnn_config = c'.qnn_config) →
      c.Validate = c'.Validate) := by
  have hcuda : ∀ x : CudaConfig, x.Validate = true ↔
      (1 ≤ x.cudnn_conv_algo_search ∧ x.cudnn_conv_algo_search ≤ 3) := by
    intro x
    simp only [CudaConfig.Validate]
    split <;> simp <;> omega
  have htrt : ∀ x : TensorrtConfig, x.Validate = true ↔
      (0 ≤ x.trt_max_workspace_size ∧ 0 ≤ x.trt_max_partition_iterations ∧
        0 ≤ x.trt_min_subgraph_size) := by
    intro x
    simp only [TensorrtConfig.Validate]
    split
    · simp; omega
    · split
      · simp; omega
      · split
        · simp; omega
        · simp; omega
  have key : ∀ x : ProviderConfig, (x.Validate = true ↔
      0 ≤ x.device ∧
      (x.provider = "cuda".toList → x.cuda_config.Validate = true) ∧
      (x.provider = "trt".toList → x.trt_config.Validate = true) ∧
      (x.provider = "qnn".toList → x.qnn_config.Validate = true)) := by
    intro x
    simp only [ProviderConfig.Validate]
    split
    · next h1 =>
      exact ⟨fun h => absurd h (by decide), fun h => absurd h.1 (by omega)⟩
    · split
      · next h1 h2 =>
        refine ⟨fun h => absurd h (by decide), fun h => ?_⟩
        exact absurd (h.2.1 h2.1) (by simp [h2.2])
      · split
        · next h1 h2 h3 =>
          refine ⟨fun h => absurd h (by decide), fun h => ?_⟩
          exact absurd (h.2.2.1 h3.1) (by simp [h3.2])
        · split
          · next h1 h2 h3 h4 =>
            refine ⟨fun h => absurd h (by decide), fun h => ?_⟩
            exact absurd (h.2.2.2 h4.1) (by simp [h4.2])
          · next h1 h2 h3 h4 =>
            refine ⟨fun _ => ⟨by omega, ?_, ?_, ?_⟩, fun _ => rfl⟩
            · intro h; by_contra hv; exact h2 ⟨h, by simpa using hv⟩
            · intro h; by_contra hv; exact h3 ⟨h, by simpa using hv⟩
            · intro h; by_contra hv; exact h4 ⟨h, by simpa using hv⟩
  refine ⟨?_, ?_⟩
  · rw [key c, hcuda, htrt]
  · intro hd hp h1 h2 h3
    rw [Bool.eq_iff_iff, key c, key c', ← hd, ← hp]
    constructor
    · rintro ⟨a, b, d, e⟩
      exact ⟨a, fun h => h1 h ▸ b h, fun h => h2 h ▸ d h, fun h => h3 h ▸ e h⟩
    · rintro ⟨a, b, d, e⟩
      exact ⟨a, fun h => (h1 h).symm ▸ b h, fun h => (h2 h).symm ▸ d h,
        fun h => (h3 h).symm ▸ e h⟩

/-- Witness for C10: a CUDA config with search mode 2 is valid, and the result for provider
"cuda" does not depend on the QNN blob. -/
theorem ProviderConfig_Validate_iff_witness :
    ({ sampleConfig "cuda".toList [] with cuda_config := ⟨2⟩ } : ProviderConfig).Validate
      = true ∧
    (sampleConfig "cuda".toList []).Validate =
      (sampleConfig "cuda".toList "not json".toList).Validate :=
  ⟨(ProviderConfig_Validate_iff _ (sampleConfig "cuda".toList [])).1.2
      ⟨by decide, fun _ => by decide, fun h => absurd h (by decide),
        fun h => absurd h (by decide)⟩,
   (ProviderConfig_Validate_iff (sampleConfig "cuda".toList [])
      (sampleConfig "cuda".toList "not json".toList)).2 rfl rfl (fun _ => rfl) (fun _ => rfl)
      (fun h => absurd h (by decide))⟩

/-! ### The scanner of `QnnConfig::Validate` on quoted pairs -/

theorem scanLoop_in_string (v : Str) (hv : '"' ∉ v) (rest : Str) (key value tok : Str)
    (state : State) :
    scanLoop (v ++ rest) ⟨true, key, value, tok, state⟩ =
      scanLoop rest ⟨true, key, value, tok ++ v, state⟩ := by
  induction v generalizing tok with
  | nil => simp
  | cons c cs ih =>
    have hc : c ≠ '"' := fun h => hv (h ▸ List.mem_cons_self _ _)
    have hcs : '"' ∉ cs := fun h => hv (List.mem_cons_of_mem _ h)
    rw [List.cons_append, scanLoop, if_neg hc, if_neg (by simp), if_pos rfl, ih hcs]
    simp

theorem scanLoop_quoted (v : Str) (hv : '"' ∉ v) (rest : Str) (key value tok : Str)
    (state : State) :
    scanLoop (quoted v ++ rest) ⟨false, key, value, tok, state⟩ =
      scanLoop rest ⟨false, key, value, tok ++ v, state⟩ := by
  have h1 : quoted v ++ rest = '"' :: (v ++ '"' :: rest) := by simp [quoted]
  rw [h1, scanLoop, if_pos rfl]
  show scanLoop (v ++ '"' :: rest) ⟨true, key, value, tok, state⟩ = _
  rw [scanLoop_in_string v hv, scanLoop, if_pos rfl]
  rfl

theorem scanLoop_colon (rest : Str) (key value tok : Str) :
    scanLoop (':' :: rest) ⟨false, key, value, tok, State.KEY⟩ =
      scanLoop rest ⟨false, tok, value, [], State.VALUE⟩ := by
  rw [scanLoop, if_neg (by decide), if_neg (by simp), if_neg (by simp), if_pos rfl,
    if_neg (by simp)]

theorem scanLoop_comma (rest : Str) (key value tok : Str) :
    scanLoop (',' :: rest) ⟨false, key, value, tok, State.VALUE⟩ =
      if checkKeyValue key tok = true then scanLoop rest ⟨false, key, tok, [], State.KEY⟩
      else none := by
  rw [scanLoop, if_neg (by decide), if_neg (by simp), if_neg (by simp), if_neg (by decide),
    if_pos rfl, if_neg (by simp)]
  cases h : checkKeyValue key tok <;> simp

theorem scanLoop_renderPair (kv : Str × Str) (hk : '"' ∉ kv.1) (hv : '"' ∉ kv.2)
    (rest : Str) (key value : Str) :
    scanLoop (renderPair kv ++ rest) ⟨false, key, value, [], State.KEY⟩ =
      scanLoop rest ⟨false, kv.1, value, kv.2, State.VALUE⟩ := by
  have h1 : renderPair kv ++ rest = quoted kv.1 ++ (':' :: (quoted kv.2 ++ rest)) := by
    simp [renderPair]
  rw [h1, scanLoop_quoted _ hk, List.nil_append, scanLoop_colon, scanLoop_quoted _ hv,
    List.nil_append]

/-! ### The option parser on quoted pairs -/

theorem find_at (pre x rest : Str) {content : Str} {c : Char} {p : Nat}
    (hcontent : content = pre ++ (x ++ c :: rest)) (hp : p = pre.length) (hx : c ∉ x) :
    find content c p = some (p + x.length) := by
  subst hcontent hp
  have hi : List.indexOf c (x ++ c :: rest) = x.length := by
    rw [List.indexOf_append_of_not_mem hx, List.indexOf_cons_self, Nat.add_zero]
  unfold find
  rw [List.drop_left, hi, if_pos (by simp)]

theorem find_none (pre x : Str) {content : Str} {c : Char} {p : Nat}
    (hcontent : content = pre ++ x) (hp : p = pre.length) (hx : c ∉ x) :
    find content c p = none := by
  subst hcontent hp
  unfold find
  rw [List.drop_left, List.indexOf_eq_length.2 hx, if_neg (by simp)]

theorem substr_at (pre x rest : Str) {content : Str} {p n : Nat}
    (hcontent : content = pre ++ (x ++ rest)) (hp : p = pre.length) (hn : n = x.length) :
    substr content p n = some x := by
  subst hcontent hp hn
  unfold substr
  rw [if_neg (by simp), List.drop_left, List.take_left]

theorem parseLoop_pair (fuel : Nat) (done tail k v : Str) (hk : '"' ∉ k) (hv : '"' ∉ v)
    (options : Options) :
    parseLoop (fuel + 1) (done ++ (renderPair (k, v) ++ tail)) done.length options =
      match find (done ++ (renderPair (k, v) ++ tail)) ','
          (done.length + (k.length + v.length + 4)) with
      | none => ParseResult.ok (options.set k v)
      | some pos =>
        parseLoop fuel (done ++ (renderPair (k, v) ++ tail)) (pos + 1) (options.set k v) := by
  generalize hc : done ++ (renderPair (k, v) ++ tail) = content
  have hc' := hc.symm
  simp only [renderPair, quoted, List.cons_append, List.append_assoc, List.nil_append] at hc'
  have hlt : done.length < content.length := by
    rw [hc']; simp
  have h1 : find content '"' done.length = some done.length :=
    find_at done [] (k ++ '"' :: ':' :: '"' :: (v ++ '"' :: tail)) hc' rfl (by simp)
  have h2 : find content '"' (done.length + 1) = some (done.length + 1 + k.length) :=
    find_at (done ++ ['"']) k (':' :: '"' :: (v ++ '"' :: tail))
      (by rw [hc']; simp) (by simp) hk
  have h3 : find content ':' (done.length + 1 + k.length) =
      some (done.length + 1 + k.length + 1) :=
    find_at (done ++ '"' :: k) ['"'] ('"' :: (v ++ '"' :: tail))
      (by rw [hc']; simp) (by simp; omega) (by decide)
  have h4 : find content '"' (done.length + 1 + k.length + 1) =
      some (done.length + 1 + k.length + 1 + 1) :=
    find_at (done ++ '"' :: (k ++ ['"'])) [':'] (v ++ '"' :: tail)
      (by rw [hc']; simp) (by simp; omega) (by decide)
  have h5 : find content '"' (done.length + 1 + k.length + 1 + 1 + 1) =
      some (done.length + 1 + k.length + 1 + 1 + 1 + v.length) :=
    find_at (done ++ '"' :: (k ++ '"' :: ':' :: ['"'])) v tail
      (by rw [hc']; simp) (by simp; omega) hv
  have h6 : substr content (done.length + 1)
      (done.length + 1 + k.length - done.length - 1) = some k :=
    substr_at (done ++ ['"']) k ('"' :: ':' :: '"' :: (v ++ '"' :: tail))
      (by rw [hc']; simp) (by simp) (by omega)
  have h7 : substr content (done.length + 1 + k.length + 1 + 1 + 1)
      (done.length + 1 + k.length + 1 + 1 + 1 + v.length -
        (done.length + 1 + k.length + 1 + 1) - 1) = some v :=
    substr_at (done ++ '"' :: (k ++ '"' :: ':' :: ['"'])) v ('"' :: tail)
      (by rw [hc']; simp) (by simp; omega) (by omega)
  have h8 : done.length + 1 + k.length + 1 + 1 + 1 + v.length =
      done.length + (k.length + v.length + 4) := by omega
  rw [parseLoop, if_pos hlt]
  simp only [h1, h2, h3, h4, h5, h6, h7]
  rw [h8]

/-! ### `QnnConfig::Validate` on brace-bounded blobs -/

theorem Validate_braced (body : Str) :
    QnnConfig.Validate ⟨'{' :: body ++ ['}']⟩ = handleLastPair (scanLoop body Scan.init) := by
  have hsub : substr ('{' :: body ++ ['}']) 1 (('{' :: body ++ ['}']).length - 2) =
      some body :=
    substr_at ['{'] body ['}'] (by simp) rfl (by simp)
  have hlast : ('{' :: body ++ ['}']).getLast? = some '}' := by
    rw [show '{' :: body ++ ['}'] = ('{' :: body) ++ ['}'] from rfl, List.getLast?_append]
    rfl
  unfold QnnConfig.Validate
  rw [if_pos (by simp), if_neg (by rw [hlast]; simp)]
  simp only [hsub]

theorem scanLoop_renderPairs (pairs : List (Str × Str)) (hq : quoteFree pairs) :
    ∀ key value : Str,
      handleLastPair (scanLoop (renderPairs pairs) ⟨false, key, value, [], State.KEY⟩) =
        checkedPairs pairs := by
  induction pairs with
  | nil => intro key value; rfl
  | cons kv rest ih =>
    intro key value
    have hkv := hq kv (List.mem_cons_self _ _)
    have hrest : quoteFree rest := fun x hx => hq x (List.mem_cons_of_mem _ hx)
    cases rest with
    | nil =>
      have h := scanLoop_renderPair kv hkv.1 hkv.2 [] key value
      rw [List.append_nil] at h
      have hr : renderPairs [kv] = renderPair kv := rfl
      rw [hr, h]
      rfl
    | cons kv' rest' =>
      have h : renderPairs (kv :: kv' :: rest') =
          renderPair kv ++ ',' :: renderPairs (kv' :: rest') := rfl
      have hc : checkedPairs (kv :: kv' :: rest') =
          (checkKeyValue kv.1 kv.2 && checkedPairs (kv' :: rest')) := rfl
      rw [h, hc, scanLoop_renderPair kv hkv.1 hkv.2, scanLoop_comma]
      cases hck : checkKeyValue kv.1 kv.2
      · simp [handleLastPair]
      · simp only [if_true, Bool.true_and]
        exact ih hrest kv.1 kv.2

theorem Validate_renderBlob (pairs : List (Str × Str)) (hq : quoteFree pairs) :
    QnnConfig.Validate ⟨renderBlob pairs⟩ = checkedPairs pairs := by
  have h : renderBlob pairs = '{' :: renderPairs pairs ++ ['}'] := rfl
  rw [h, Validate_braced]
  exact scanLoop_renderPairs pairs hq [] []

theorem scanLoop_renderPairsComma (pairs : List (Str × Str)) (hq : quoteFree pairs)
    (rest : Str) :
    ∀ key value : Str,
      scanLoop (renderPairsComma pairs ++ rest) ⟨false, key, value, [], State.KEY⟩ = none ∨
      ∃ key' value' : Str,
        scanLoop (renderPairsComma pairs ++ rest) ⟨false, key, value, [], State.KEY⟩ =
          scanLoop rest ⟨false, key', value', [], State.KEY⟩ := by
  induction pairs with
  | nil => intro key value; exact Or.inr ⟨key, value, rfl⟩
  | cons kv more ih =>
    intro key value
    have hkv := hq kv (List.mem_cons_self _ _)
    have hmore : quoteFree more := fun x hx => hq x (List.mem_cons_of_mem _ hx)
    have h : renderPairsComma (kv :: more) ++ rest =
        renderPair kv ++ ',' :: (renderPairsComma more ++ rest) := by
      simp [renderPairsComma]
    rw [h, scanLoop_renderPair kv hkv.1 hkv.2, scanLoop_comma]
    cases hck : checkKeyValue kv.1 kv.2
    · left; simp
    · simp only [if_true]
      exact ih hmore kv.1 kv.2

theorem open_domain_lookup : ∀ k ∈ open_domain_keys, valid_options.lookup k = some [] := by
  decide

theorem open_domain_quoteFree : ∀ k ∈ open_domain_keys, '"' ∉ k := by
  decide

/-! ### `QnnConfig::Validate`: keys and values -/

/-- C3, at the failing input: the key `bogus` is not a supported QNN option, yet
`QnnConfig::Validate` accepts the blob `{"bogus":""}`, because the last pair is checked
only when its value is not empty; the same pair followed by a comma is rejected. -/
theorem QnnConfig_Validate_accepts_unknown_key_with_empty_last_value :
    valid_options.lookup "bogus".toList = none ∧
    renderBlob [("bogus".toList, [])] = "\x7b\"bogus\":\"\"\x7d".toList ∧
    QnnConfig.Validate ⟨"\x7b\"bogus\":\"\"\x7d".toList⟩ = true ∧
    QnnConfig.Validate ⟨"\x7b\"bogus\":\"\",\"vtcm_mb\":\"8\"\x7d".toList⟩ = false := by
  refine ⟨by decide, by decide, by decide, by decide⟩

/-- C4, at the failing input: the empty string is not in the allow-list of `htp_arch`, yet
`QnnConfig::Validate` accepts the blob `{"htp_arch":""}`, because the last pair is checked
only when its value is not empty; the same pair followed by a comma is rejected. -/
theorem QnnConfig_Validate_accepts_empty_last_enumerated_value :
    valid_options.lookup "htp_arch".toList =
      some ["0".toList, "68".toList, "69".toList, "73".toList, "75".toList, "79".toList] ∧
    renderBlob [("htp_arch".toList, [])] = "\x7b\"htp_arch\":\"\"\x7d".toList ∧
    QnnConfig.Validate ⟨"\x7b\"htp_arch\":\"\"\x7d".toList⟩ = true ∧
    QnnConfig.Validate ⟨"\x7b\"htp_arch\":\"\",\"vtcm_mb\":\"8\"\x7d".toList⟩ = false := by
  refine ⟨by decide, by decide, by decide, by decide⟩

/-- C5: `QnnConfig::Validate` accepts any value for open-domain keys. For every open-domain
key `k` and every string `v` without a double quote, the blob `{"k":"v"}` is accepted. -/
theorem QnnConfig_Validate_accepts_open_domain (k v : Str) (hk : k ∈ open_domain_keys)
    (hv : '"' ∉ v) :
    QnnConfig.Validate ⟨renderBlob [(k, v)]⟩ = true := by
  have hq : quoteFree [(k, v)] := by
    intro kv hkv
    rw [List.mem_singleton] at hkv
    subst hkv
    exact ⟨open_domain_quoteFree k hk, hv⟩
  rw [Validate_renderBlob _ hq]
  simp only [checkedPairs, checkKeyValue, open_domain_lookup k hk]
  simp

/-- Witness for C5: the key `backend_path` with a value that holds a colon, a comma and
blanks. -/
theorem QnnConfig_Validate_accepts_open_domain_witness :
    QnnConfig.Validate ⟨renderBlob [("backend_path".toList, "C:/a b, c".toList)]⟩ = true :=
  QnnConfig_Validate_accepts_open_domain "backend_path".toList "C:/a b, c".toList
    (by decide) (by decide)

/-! ### `QnnConfig::Validate`: nested values -/

/-- C7, as stated, fails: `QnnConfig::Validate` accepts an array and an empty nested object
as the value of the open-domain key `backend_path`. -/
theorem QnnConfig_Validate_accepts_nested_values :
    QnnConfig.Validate ⟨"\x7b\"backend_path\":[\"a\",\"b\"]\x7d".toList⟩ = true ∧
    QnnConfig.Validate ⟨"\x7b\"backend_path\":\x7b\x7d\x7d".toList⟩ = true := by
  refine ⟨by decide, by decide⟩

/-! ### The option map -/

theorem lookup_cons_eq (a b : Str) (es : List (Str × Str)) (k : Str) :
    List.lookup k ((a, b) :: es) = if k = a then some b else List.lookup k es := by
  by_cases h : k = a
  · subst h
    simp
  · have hb : (k == a) = false := by simpa using h
    simp [List.lookup, hb, h]

theorem lookup_set (m : Options) (k v k' : Str) :
    (m.set k v).lookup k' = if k' = k then some v else m.lookup k' := by
  induction m with
  | nil =>
    show List.lookup k' [(k, v)] = _
    rw [lookup_cons_eq]
  | cons kv rest ih =>
    obtain ⟨a, b⟩ := kv
    by_cases hak : a = k
    · subst hak
      have hs : Options.set ((a, b) :: rest) a v = (a, v) :: rest := by simp [Options.set]
      rw [hs, lookup_cons_eq, lookup_cons_eq]
      by_cases h : k' = a <;> simp [h]
    · have hs : Options.set ((a, b) :: rest) k v = (a, b) :: Options.set rest k v := by
        simp [Options.set, hak]
      rw [hs, lookup_cons_eq, lookup_cons_eq, ih]
      by_cases h : k' = a
      · subst h
        simp [hak]
      · simp [h]

theorem lookup_assignAll (pairs : List (Str × Str)) (k : Str) :
    ∀ m : Options, (assignAll m pairs).lookup k =
      match lastValue pairs k with
      | some v => some v
      | none => m.lookup k := by
  induction pairs with
  | nil => intro m; rfl
  | cons kv rest ih =>
    intro m
    have h : assignAll m (kv :: rest) = assignAll (m.set kv.1 kv.2) rest := rfl
    rw [h, ih, lookup_set]
    simp only [lastValue]
    cases hl : lastValue rest k with
    | some v => rfl
    | none =>
      by_cases hk : kv.1 = k
      · simp [hk]
      · have hk' : ¬ k = kv.1 := fun e => hk e.symm
        simp [hk, hk']

theorem lastValue_eq_none_iff (pairs : List (Str × Str)) (k : Str) :
    lastValue pairs k = none ↔ k ∉ pairs.map Prod.fst := by
  induction pairs with
  | nil => simp [lastValue]
  | cons kv rest ih =>
    simp only [lastValue, List.map_cons, List.mem_cons, not_or]
    cases hl : lastValue rest k with
    | some v =>
      have := ih.not.1 (by simp [hl])
      simp only [reduceCtorEq, false_iff, not_and]
      intro _
      exact this
    | none =>
      have := ih.1 hl
      by_cases hk : kv.1 = k
      · simp [hk]
      · have hk' : ¬ k = kv.1 := fun e => hk e.symm
        simp [hk, hk', this]

theorem lastValue_mem (pairs : List (Str × Str)) (k v : Str)
    (h : lastValue pairs k = some v) : (k, v) ∈ pairs := by
  induction pairs with
  | nil => simp [lastValue] at h
  | cons kv rest ih =>
    simp only [lastValue] at h
    cases hl : lastValue rest k with
    | some w =>
      rw [hl] at h
      simp only [Option.some.injEq] at h
      subst h
      exact List.mem_cons_of_mem _ (ih hl)
    | none =>
      rw [hl] at h
      by_cases hk : kv.1 = k
      · simp only [hk, if_true, Option.some.injEq] at h
        have : kv = (k, v) := Prod.ext hk h
        rw [this]
        exact List.mem_cons_self _ _
      · simp [hk] at h

theorem set_of_not_mem (m : Options) (k v : Str) (h : k ∉ m.map Prod.fst) :
    m.set k v = m ++ [(k, v)] := by
  induction m with
  | nil => rfl
  | cons kv rest ih =>
    obtain ⟨a, b⟩ := kv
    simp only [List.map_cons, List.mem_cons, not_or] at h
    have hak : ¬ a = k := fun e => h.1 e.symm
    simp [Options.set, hak, ih h.2]

theorem assignAll_of_nodup (pairs : List (Str × Str)) :
    ∀ m : Options, ((m ++ pairs).map Prod.fst).Nodup → assignAll m pairs = m ++ pairs := by
  induction pairs with
  | nil => intro m _; simp [assignAll]
  | cons kv rest ih =>
    intro m hnd
    have h : assignAll m (kv :: rest) = assignAll (m.set kv.1 kv.2) rest := rfl
    have hnot : kv.1 ∉ m.map Prod.fst := by
      intro hmem
      rw [List.map_append, List.map_cons] at hnd
      have := (List.nodup_append.1 hnd).2.2
      exact this hmem (List.mem_cons_self _ _)
    have hset : m.set kv.1 kv.2 = m ++ [kv] := set_of_not_mem m kv.1 kv.2 hnot
    rw [h, hset, ih]
    · simp
    · simpa using hnd

/-! ### The option parser on a blob of quoted pairs -/

theorem renderPair_length (kv : Str × Str) :
    (renderPair kv).length = kv.1.length + kv.2.length + 5 := by
  simp [renderPair, quoted]
  omega

theorem parseLoop_renderPairs (pairs : List (Str × Str)) (hq : quoteFree pairs) :
    ∀ (fuel : Nat) (done : Str) (options : Options), pairs.length < fuel →
      parseLoop fuel (done ++ renderPairs pairs) done.length options =
        ParseResult.ok (assignAll options pairs) := by
  induction pairs with
  | nil =>
    intro fuel done options hf
    obtain ⟨f, rfl⟩ : ∃ f, fuel = f + 1 := ⟨fuel - 1, by omega⟩
    rw [parseLoop, if_neg (by simp [renderPairs])]
    rfl
  | cons kv rest ih =>
    intro fuel done options hf
    obtain ⟨f, rfl⟩ : ∃ f, fuel = f + 1 := ⟨fuel - 1, by omega⟩
    have hkv := hq kv (List.mem_cons_self _ _)
    have hrest : quoteFree rest := fun x hx => hq x (List.mem_cons_of_mem _ hx)
    obtain ⟨k, v⟩ := kv
    cases rest with
    | nil =>
      have hr : renderPairs [(k, v)] = renderPair (k, v) ++ [] := by
        simp [renderPairs]
      have hnone : find (done ++ (renderPair (k, v) ++ [])) ','
          (done.length + (k.length + v.length + 4)) = none :=
        find_none (done ++ '"' :: (k ++ '"' :: ':' :: '"' :: v)) ['"']
          (by simp [renderPair, quoted]) (by simp; omega) (by decide)
      rw [hr, parseLoop_pair f done [] k v hkv.1 hkv.2, hnone]
      rfl
    | cons kv' rest' =>
      have hr : renderPairs ((k, v) :: kv' :: rest') =
          renderPair (k, v) ++ ',' :: renderPairs (kv' :: rest') := rfl
      have hsome : find (done ++ (renderPair (k, v) ++ ',' :: renderPairs (kv' :: rest'))) ','
          (done.length + (k.length + v.length + 4)) =
            some (done.length + (k.length + v.length + 4) + 1) :=
        find_at (done ++ '"' :: (k ++ '"' :: ':' :: '"' :: v)) ['"']
          (renderPairs (kv' :: rest'))
          (by simp [renderPair, quoted]) (by simp; omega) (by decide)
      have hcontent : done ++ (renderPair (k, v) ++ ',' :: renderPairs (kv' :: rest')) =
          (done ++ (renderPair (k, v) ++ [','])) ++ renderPairs (kv' :: rest') := by
        simp
      have hpos : done.length + (k.length + v.length + 4) + 1 + 1 =
          (done ++ (renderPair (k, v) ++ [','])).length := by
        simp [renderPair_length]
        omega
      rw [hr, parseLoop_pair f done _ k v hkv.1 hkv.2, hsome]
      simp only []
      rw [hcontent, hpos, ih hrest f _ _ (by simpa using hf)]
      rfl

theorem renderPairs_length (pairs : List (Str × Str)) :
    pairs.length ≤ (renderPairs pairs).length := by
  induction pairs with
  | nil => simp
  | cons kv rest ih =>
    cases rest with
    | nil => simp [renderPairs, renderPair_length]
    | cons kv' rest' =>
      have hr : renderPairs (kv :: kv' :: rest') =
          renderPair kv ++ ',' :: renderPairs (kv' :: rest') := rfl
      rw [hr]
      simp only [List.length_append, List.length_cons] at ih ⊢
      omega

theorem parseQnnOptions_renderBlob (pairs : List (Str × Str)) (hq : quoteFree pairs) :
    parseQnnOptions (renderBlob pairs) = ParseResult.ok (assignAll [] pairs) := by
  have hb : renderBlob pairs = '{' :: renderPairs pairs ++ ['}'] := rfl
  have hsub : substr ('{' :: renderPairs pairs ++ ['}']) 1
      (('{' :: renderPairs pairs ++ ['}']).length - 2) = some (renderPairs pairs) :=
    substr_at ['{'] (renderPairs pairs) ['}'] (by simp) rfl (by simp)
  have hlast : ('{' :: renderPairs pairs ++ ['}']).getLast? = some '}' := by
    rw [show '{' :: renderPairs pairs ++ ['}'] = ('{' :: renderPairs pairs) ++ ['}'] from rfl,
      List.getLast?_append]
    rfl
  unfold parseQnnOptions
  rw [hb, if_pos ⟨by simp, hlast⟩]
  simp only [hsub]
  have h := parseLoop_renderPairs pairs hq ((renderPairs pairs).length + 1) [] []
    (by have := renderPairs_length pairs; omega)
  simpa using h

theorem lookup_eq_none_iff_not_mem (m : List (Str × Str)) (k : Str) :
    m.lookup k = none ↔ k ∉ m.map Prod.fst := by
  induction m with
  | nil => simp
  | cons kv rest ih =>
    obtain ⟨a, b⟩ := kv
    rw [lookup_cons_eq]
    by_cases h : k = a
    · simp [h]
    · simp [h, ih]

theorem allowListed_iff (key value : Str) :
    allowListed key value ↔ checkKeyValue key value = true := by
  unfold allowListed checkKeyValue
  cases h : valid_options.lookup key with
  | none => simp
  | some vals =>
    simp only [Option.some.injEq, exists_eq_left', ne_eq, ite_eq_right_iff]
    constructor
    · intro h1 h2
      rcases h1 with h1 | h1
      · exact absurd h1 h2.1
      · exact absurd h1 h2.2
    · intro h1
      by_cases hv : vals = []
      · exact Or.inl hv
      · right
        by_contra hm
        exact absurd (h1 ⟨hv, hm⟩) (by simp)

theorem checkedPairs_mem (pairs : List (Str × Str)) (h : checkedPairs pairs = true) :
    ∀ kv ∈ pairs, checkKeyValue kv.1 kv.2 = true ∨ (kv.2 = [] ∧ pairs.getLast? = some kv) := by
  induction pairs with
  | nil => intro kv hkv; simp at hkv
  | cons p rest ih =>
    cases rest with
    | nil =>
      intro kv hkv
      rw [List.mem_singleton] at hkv
      subst hkv
      simp only [checkedPairs] at h
      by_cases hv : kv.2 = []
      · exact Or.inr ⟨hv, rfl⟩
      · left
        simpa [hv] using h
    | cons p' rest' =>
      have hc : checkedPairs (p :: p' :: rest') =
          (checkKeyValue p.1 p.2 && checkedPairs (p' :: rest')) := rfl
      rw [hc, Bool.and_eq_true] at h
      intro kv hkv
      rcases List.mem_cons.1 hkv with heq | hmem
      · subst heq
        exact Or.inl h.1
      · rcases ih h.2 kv hmem with h1 | h1
        · exact Or.inl h1
        · right
          refine ⟨h1.1, ?_⟩
          rw [List.getLast?_cons_cons]
          exact h1.2

/-! ### The QNN branch: parsing and forwarding -/

/-- C8: the QNN branch of `GetSessionOptionsImpl` parses the option string into a flat map
and forwards it verbatim. For pairs of strings free of the double quote, the blob
`{"k_1":"v_1",...,"k_n":"v_n"}` is parsed into a map whose keys are exactly the `k_i`, which
sends each key to the value of its last occurrence, which is the list of pairs itself when
the keys are pairwise distinct, and which is empty for no pair; with QNN available and
attaching, the returned session options hold exactly this map. -/
theorem QNN_options_parsed_and_forwarded (pairs : List (Str × Str)) (hq : quoteFree pairs) :
    ∃ m : Options,
      parseQnnOptions (renderBlob pairs) = ParseResult.ok m ∧
      (∀ k : Str, k ∈ m.map Prod.fst ↔ k ∈ pairs.map Prod.fst) ∧
      (∀ k : Str, m.lookup k = lastValue pairs k) ∧
      ((pairs.map Prod.fst).Nodup → m = pairs) ∧
      (pairs = [] → m = []) ∧
      (∀ (env : Env) (num_threads : Int) (provider_str : Str) (cfg : ProviderConfig),
        StringToProvider provider_str = Provider.kQNN →
        cfg.qnn_config.json_config = renderBlob pairs →
        "QNNExecutionProvider".toList ∈ env.available_providers →
        env.attach_ok Provider.kQNN = true →
        GetSessionOptionsImpl env num_threads provider_str (some cfg) =
          Outcome.returned
            { intra_op_num_threads := num_threads, inter_op_num_threads := num_threads,
              providers := [AttachedProvider.QNN m], mem_pattern := true,
              execution_mode := ExecutionMode.ORT_SEQUENTIAL }) := by
  have hparse := parseQnnOptions_renderBlob pairs hq
  have hlook : ∀ k : Str, (assignAll [] pairs).lookup k = lastValue pairs k := by
    intro k
    rw [lookup_assignAll]
    cases lastValue pairs k <;> rfl
  refine ⟨assignAll [] pairs, hparse, ?_, hlook, ?_, ?_, ?_⟩
  · intro k
    rw [← not_iff_not, ← lookup_eq_none_iff_not_mem, ← lastValue_eq_none_iff, hlook]
  · intro hnd
    have := assignAll_of_nodup pairs [] (by simpa using hnd)
    simpa using this
  · intro h
    subst h
    rfl
  · intro env num_threads provider_str cfg hp hjson hav hok
    have hne : cfg.qnn_config.json_config ≠ [] := by
      rw [hjson]
      simp [renderBlob]
    simp only [GetSessionOptionsImpl, hp, caseQNN]
    rw [if_pos hav, if_pos hne, hjson, hparse]
    simp only [AppendExecutionProvider, hok, if_true]
    rfl

/-- Witness for C8: three pairs, two of them with the key `backend_path`. -/
theorem QNN_options_parsed_and_forwarded_witness :
    ∃ m : Options,
      parseQnnOptions (renderBlob [("backend_path".toList, "libQnnCpu.so".toList),
        ("htp_arch".toList, "75".toList), ("backend_path".toList, "libQnnHtp.so".toList)]) =
        ParseResult.ok m ∧
      m.lookup "backend_path".toList = some "libQnnHtp.so".toList ∧
      m.lookup "htp_arch".toList = some "75".toList :=
  let ⟨m, h1, _, h3, _⟩ := QNN_options_parsed_and_forwarded
    [("backend_path".toList, "libQnnCpu.so".toList), ("htp_arch".toList, "75".toList),
      ("backend_path".toList, "libQnnHtp.so".toList)] (by decide)
  ⟨m, h1, (h3 _).trans (by decide), (h3 _).trans (by decide)⟩

/-! ### Validator and parser -/

/-- C9, as stated, fails for bare-token values: `QnnConfig::Validate` accepts
`{"htp_arch":0,"backend_path":"x"}`, and the parser forwards `htp_arch` with the value
`backend_path`, which is not in the allow-list of `htp_arch`; it accepts `{"vtcm_mb":8}`,
and the parser forwards nothing. -/
theorem validator_and_parser_disagree_on_bare_tokens :
    QnnConfig.Validate ⟨"\x7b\"htp_arch\":0,\"backend_path\":\"x\"\x7d".toList⟩ = true ∧
    parseQnnOptions "\x7b\"htp_arch\":0,\"backend_path\":\"x\"\x7d".toList =
      ParseResult.ok [("htp_arch".toList, "backend_path".toList)] ∧
    ¬ allowListed "htp_arch".toList "backend_path".toList ∧
    QnnConfig.Validate ⟨"\x7b\"vtcm_mb\":8\x7d".toList⟩ = true ∧
    parseQnnOptions "\x7b\"vtcm_mb\":8\x7d".toList = ParseResult.ok [] := by
  refine ⟨by decide, by decide, ?_, by decide, by decide⟩
  rw [allowListed_iff]
  decide

/-- C9, amended to quoted values: for every blob `{"k_1":"v_1",...,"k_n":"v_n"}` of strings
free of the double quote that `QnnConfig::Validate` accepts, the map built by the parser
sends each key to the value of its last occurrence among the pairs, and every forwarded
pair is allow-listed, a last pair with an empty value apart. -/
theorem validator_and_parser_agree_on_quoted_pairs (pairs : List (Str × Str))
    (hq : quoteFree pairs) (hvalid : QnnConfig.Validate ⟨renderBlob pairs⟩ = true) :
    ∃ m : Options,
      parseQnnOptions (renderBlob pairs) = ParseResult.ok m ∧
      (∀ k : Str, m.lookup k = lastValue pairs k) ∧
      (∀ k v : Str, m.lookup k = some v →
        allowListed k v ∨ (v = [] ∧ pairs.getLast? = some (k, v))) := by
  have hlook : ∀ k : Str, (assignAll [] pairs).lookup k = lastValue pairs k := by
    intro k
    rw [lookup_assignAll]
    cases lastValue pairs k <;> rfl
  refine ⟨assignAll [] pairs, parseQnnOptions_renderBlob pairs hq, hlook, ?_⟩
  intro k v hkv
  rw [hlook] at hkv
  rw [Validate_renderBlob pairs hq] at hvalid
  rcases checkedPairs_mem pairs hvalid (k, v) (lastValue_mem pairs k v hkv) with h | h
  · exact Or.inl ((allowListed_iff k v).2 h)
  · exact Or.inr h

/-- Witness for C9 (amended): the blob `{"htp_arch":"75","backend_path":"x"}`. -/
theorem validator_and_parser_agree_on_quoted_pairs_witness :
    ∃ m : Options,
      parseQnnOptions (renderBlob [("htp_arch".toList, "75".toList),
        ("backend_path".toList, "x".toList)]) = ParseResult.ok m ∧
      (m.lookup "htp_arch".toList = some "75".toList →
        allowListed "htp_arch".toList "75".toList ∨
          ("75".toList = [] ∧
            [("htp_arch".toList, "75".toList), ("backend_path".toList, "x".toList)].getLast? =
              some ("htp_arch".toList, "75".toList))) :=
  let ⟨m, h1, _, h3⟩ := validator_and_parser_agree_on_quoted_pairs
    [("htp_arch".toList, "75".toList), ("backend_path".toList, "x".toList)]
    (by decide) (by decide)
  ⟨m, h1, h3 _ _⟩

/-! ### `CudaConfig::Validate` -/

/-- C11: `CudaConfig::Validate` accepts exactly 1, 2 and 3. For every integer `n`, and so
for every 32-bit one, `Validate` with `cudnn_conv_algo_search = n` returns true if and only
if `n` is 1, 2 or 3. -/
theorem CudaConfig_Validate_iff (n : Int) :
    CudaConfig.Validate ⟨n⟩ = true ↔ n = 1 ∨ n = 2 ∨ n = 3 := by
  simp only [CudaConfig.Validate]
  split
  · next h =>
    constructor
    · intro hf
      exact absurd hf (by decide)
    · intro hn
      omega
  · next h =>
    constructor
    · intro _
      omega
    · intro _
      rfl

/-! ### `ProviderConfig::Validate` and the case of the provider name -/

/-- C16: `ProviderConfig::Validate` compares the provider name case-sensitively. For every
config whose provider is not exactly "cuda", "trt" or "qnn" and whose device is not
negative, `Validate` returns true whatever the option groups hold, while `StringToProvider`
maps "CUDA", "Trt" and "QNN" to the CUDA, TensorRT and QNN tags. -/
theorem ProviderConfig_Validate_case_sensitive (c : ProviderConfig) :
    (c.provider ≠ "cuda".toList → c.provider ≠ "trt".toList → c.provider ≠ "qnn".toList →
      0 ≤ c.device → c.Validate = true) ∧
    StringToProvider "CUDA".toList = Provider.kCUDA ∧
    StringToProvider "Trt".toList = Provider.kTRT ∧
    StringToProvider "QNN".toList = Provider.kQNN := by
  refine ⟨?_, by decide, by decide, by decide⟩
  intro h1 h2 h3 hd
  simp only [ProviderConfig.Validate]
  rw [if_neg (by omega), if_neg (fun h => h1 h.1), if_neg (fun h => h2 h.1),
    if_neg (fun h => h3 h.1)]

/-- Witness for C16: provider "CUDA" with search mode 99, negative TensorRT sizes and a
blob that is not bounded by braces. -/
theorem ProviderConfig_Validate_case_sensitive_witness :
    ProviderConfig.Validate
      { trt_config :=
          { (sampleConfig [] []).trt_config with
            trt_max_workspace_size := -1, trt_max_partition_iterations := -1,
            trt_min_subgraph_size := -1 },
        cuda_config := { cudnn_conv_algo_search := 99 },
        qnn_config := { json_config := "not json".toList },
        provider := "CUDA".toList, device := 0 } = true :=
  (ProviderConfig_Validate_case_sensitive _).1 (by decide) (by decide) (by decide) (by decide)

/-! ### `OfflineTtsModelConfig::Validate` -/

/-- C18: `OfflineTtsModelConfig::Validate` consults the provider config only when both
model paths are empty. It returns false when `num_threads < 1`; with `num_threads >= 1` it
returns `vits.Validate()` when `vits.model` is not empty, `matcha.Validate()` when
`vits.model` is empty and `matcha.acoustic_model` is not, and
`provider_config.Validate() && kokoro.Validate()` when both are empty; in the first two cases
replacing the provider config does not change the result. -/
theorem OfflineTtsModelConfig_Validate_cases {Vits Matcha Kokoro : Type}
    (groups : OfflineTtsGroups Vits Matcha Kokoro)
    (c : OfflineTtsModelConfig Vits Matcha Kokoro) :
    (c.num_threads < 1 → OfflineTtsModelConfig.Validate groups c = false) ∧
    (1 ≤ c.num_threads → groups.vits_model c.vits ≠ [] →
      OfflineTtsModelConfig.Validate groups c = groups.vits_Validate c.vits) ∧
    (1 ≤ c.num_threads → groups.vits_model c.vits = [] →
      groups.matcha_acoustic_model c.matcha ≠ [] →
      OfflineTtsModelConfig.Validate groups c = groups.matcha_Validate c.matcha) ∧
    (1 ≤ c.num_threads → groups.vits_model c.vits = [] →
      groups.matcha_acoustic_model c.matcha = [] →
      OfflineTtsModelConfig.Validate groups c =
        (c.provider_config.Validate && groups.kokoro_Validate c.kokoro)) ∧
    (∀ provider_config : ProviderConfig,
      groups.vits_model c.vits ≠ [] ∨ groups.matcha_acoustic_model c.matcha ≠ [] →
      OfflineTtsModelConfig.Validate groups { c with provider_config := provider_config } =
        OfflineTtsModelConfig.Validate groups c) := by
  refine ⟨?_, ?_, ?_, ?_, ?_⟩
  · intro h
    simp only [OfflineTtsModelConfig.Validate, if_pos h]
  · intro h hv
    simp only [OfflineTtsModelConfig.Validate]
    rw [if_neg (by omega), if_pos hv]
  · intro h hv hm
    simp only [OfflineTtsModelConfig.Validate]
    rw [if_neg (by omega), if_neg (by simp [hv]), if_pos hm]
  · intro h hv hm
    simp only [OfflineTtsModelConfig.Validate]
    rw [if_neg (by omega), if_neg (by simp [hv]), if_neg (by simp [hm])]
    cases c.provider_config.Validate <;> simp
  · intro pc h
    simp only [OfflineTtsModelConfig.Validate]
    by_cases hn : c.num_threads < 1
    · rw [if_pos hn, if_pos hn]
    · rw [if_neg hn, if_neg hn]
      by_cases hv : groups.vits_model c.vits ≠ []
      · rw [if_pos hv, if_pos hv]
      · rw [if_neg hv, if_neg hv]
        rcases h with h | h
        · exact absurd h hv
        · rw [if_pos h, if_pos h]

/-- Witness for C18: a VITS model path with an invalid provider config (device -1), and
two threads less than one. -/
theorem OfflineTtsModelConfig_Validate_cases_witness :
    OfflineTtsModelConfig.Validate sampleGroups
      (sampleTts "vits.onnx".toList [] "cpu".toList
        { sampleConfig "cuda".toList [] with device := -1 }) = true ∧
    OfflineTtsModelConfig.Validate sampleGroups
      { sampleTts "vits.onnx".toList [] "cpu".toList (sampleConfig "cuda".toList []) with
        num_threads := 0 } = false :=
  ⟨(OfflineTtsModelConfig_Validate_cases sampleGroups _).2.1 (by decide) (by decide),
   (OfflineTtsModelConfig_Validate_cases sampleGroups _).1 (by decide)⟩

/-! ### The cases of `GetSessionOptionsImpl` -/

theorem GetSessionOptionsImpl_cuda (env : Env) (num_threads : Int)
    (provider_config : Option ProviderConfig) :
    GetSessionOptionsImpl env num_threads "cuda".toList provider_config =
      caseCUDA env (cpuOnly num_threads) provider_config := by
  have h : StringToProvider "cuda".toList = Provider.kCUDA := by decide
  simp only [GetSessionOptionsImpl, h]
  rfl

theorem GetSessionOptionsImpl_trt (env : Env) (num_threads : Int) (provider_str : Str)
    (cfg : ProviderConfig) (hp : StringToProvider provider_str = Provider.kTRT) :
    GetSessionOptionsImpl env num_threads provider_str (some cfg) =
      if "TensorrtExecutionProvider".toList ∈ env.available_providers then
        if env.attach_ok Provider.kTRT = true then
          caseCUDA env
            { cpuOnly num_threads with providers := [AttachedProvider.TensorRT (trt_options cfg)] }
            (some cfg)
        else Outcome.threw
      else caseCUDA env (cpuOnly num_threads) (some cfg) := by
  simp only [GetSessionOptionsImpl, hp, AppendExecutionProvider]
  by_cases hav : "TensorrtExecutionProvider".toList ∈ env.available_providers
  · rw [if_pos hav, if_pos hav]
    by_cases hok : env.attach_ok Provider.kTRT = true
    · rw [if_pos hok, if_pos hok]
      rfl
    · rw [if_neg hok, if_neg hok]
  · rw [if_neg hav, if_neg hav]
    rfl

theorem caseCUDA_eq (env : Env) (sess_opts : SessionOptions)
    (provider_config : Option ProviderConfig) :
    caseCUDA env sess_opts provider_config =
      if "CUDAExecutionProvider".toList ∈ env.available_providers then
        if env.attach_ok Provider.kCUDA = true then
          Outcome.returned
            { sess_opts with
              providers := sess_opts.providers ++
                [match provider_config with
                 | some cfg =>
                   AttachedProvider.CUDA cfg.device cfg.cuda_config.cudnn_conv_algo_search
                 | none => AttachedProvider.CUDA 0 OrtCudnnConvAlgoSearchHeuristic] }
        else Outcome.threw
      else Outcome.returned sess_opts := by
  simp only [caseCUDA, AppendExecutionProvider]
  by_cases hav : "CUDAExecutionProvider".toList ∈ env.available_providers
  · rw [if_pos hav, if_pos hav]
    by_cases hok : env.attach_ok Provider.kCUDA = true
    · rw [if_pos hok, if_pos hok]
    · rw [if_neg hok, if_neg hok]
  · rw [if_neg hav, if_neg hav]

theorem caseQNN_returns (env : Env) (sess_opts : SessionOptions)
    (provider_config : Option ProviderConfig) :
    ∃ o, caseQNN env sess_opts provider_config = Outcome.returned o := by
  cases provider_config with
  | none => exact ⟨_, rfl⟩
  | some cfg =>
    simp only [caseQNN]
    split
    · split
      · split
        · next hd => exact absurd hd (parseQnnOptions_ne_out_of_fuel _)
        · exact ⟨_, rfl⟩
        · split <;> exact ⟨_, rfl⟩
      · split <;> exact ⟨_, rfl⟩
    · exact ⟨_, rfl⟩

/-! ### TensorRT and CUDA -/

/-- C15: for transducer models only the encoder runs with TensorRT. When the provider of
the config is "trt" and the model type is "decoder" or "joiner", the outcome is that of
`GetSessionOptionsImpl` with "cuda" and the provider config, and session options returned
this way hold no TensorRT; in every other case the outcome is that of
`GetSessionOptionsImpl` with the provider of the config. -/
theorem GetSessionOptions_transducer (env : Env) (config : OnlineModelConfig)
    (model_type : Str) :
    (config.provider_config.provider = "trt".toList →
      model_type = "decoder".toList ∨ model_type = "joiner".toList →
      GetSessionOptions_OnlineModelConfig_model_type env config model_type =
        GetSessionOptionsImpl env config.num_threads "cuda".toList
          (some config.provider_config) ∧
      ∀ o, GetSessionOptions_OnlineModelConfig_model_type env config model_type =
          Outcome.returned o →
        ∀ options, AttachedProvider.TensorRT options ∉ o.providers) ∧
    (¬ (config.provider_config.provider = "trt".toList ∧
        (model_type = "decoder".toList ∨ model_type = "joiner".toList)) →
      GetSessionOptions_OnlineModelConfig_model_type env config model_type =
        GetSessionOptionsImpl env config.num_threads config.provider_config.provider
          (some config.provider_config)) := by
  constructor
  · intro hp hm
    have heq : GetSessionOptions_OnlineModelConfig_model_type env config model_type =
        GetSessionOptionsImpl env config.num_threads "cuda".toList
          (some config.provider_config) := by
      simp only [GetSessionOptions_OnlineModelConfig_model_type]
      rw [if_pos ⟨hp, hm⟩]
    refine ⟨heq, ?_⟩
    intro o ho options hmem
    rw [heq, GetSessionOptionsImpl_cuda, caseCUDA_eq] at ho
    split at ho
    · split at ho
      · simp only [Outcome.returned.injEq] at ho
        subst ho
        simp [cpuOnly] at hmem
      · exact absurd ho (by simp)
    · simp only [Outcome.returned.injEq] at ho
      subst ho
      simp [cpuOnly] at hmem
  · intro h
    simp only [GetSessionOptions_OnlineModelConfig_model_type]
    rw [if_neg h]

/-- Witness for C15: the joiner of a TensorRT config on a machine with TensorRT and CUDA. -/
theorem GetSessionOptions_transducer_witness :
    GetSessionOptions_OnlineModelConfig_model_type envTrtCuda
        { provider_config := sampleConfig "trt".toList [], num_threads := 4 }
        "joiner".toList =
      GetSessionOptionsImpl envTrtCuda 4 "cuda".toList (some (sampleConfig "trt".toList [])) ∧
    GetSessionOptions_OnlineModelConfig_model_type envTrtCuda
        { provider_config := sampleConfig "trt".toList [], num_threads := 4 }
        "encoder".toList =
      GetSessionOptionsImpl envTrtCuda 4 "trt".toList (some (sampleConfig "trt".toList [])) :=
  ⟨((GetSessionOptions_transducer envTrtCuda
      { provider_config := sampleConfig "trt".toList [], num_threads := 4 }
      "joiner".toList).1 rfl (Or.inr rfl)).1,
   (GetSessionOptions_transducer envTrtCuda
      { provider_config := sampleConfig "trt".toList [], num_threads := 4 }
      "encoder".toList).2 (by decide)⟩

/-! ### The fatal path -/

theorem caseCUDA_shape (env : Env) (sess_opts : SessionOptions)
    (provider_config : Option ProviderConfig) :
    (caseCUDA env sess_opts provider_config = Outcome.threw ∧
      env.attach_ok Provider.kCUDA = false) ∨
    ∃ o, caseCUDA env sess_opts provider_config = Outcome.returned o := by
  rw [caseCUDA_eq]
  by_cases hav : "CUDAExecutionProvider".toList ∈ env.available_providers
  · rw [if_pos hav]
    by_cases hok : env.attach_ok Provider.kCUDA = true
    · rw [if_pos hok]
      exact Or.inr ⟨_, rfl⟩
    · rw [if_neg hok]
      exact Or.inl ⟨rfl, by simpa using hok⟩
  · rw [if_neg hav]
    exact Or.inr ⟨_, rfl⟩

theorem GetSessionOptionsImpl_shape (env : Env) (num_threads : Int) (provider_str : Str)
    (provider_config : Option ProviderConfig) :
    (GetSessionOptionsImpl env num_threads provider_str provider_config = Outcome.exited 1 ∧
      StringToProvider provider_str = Provider.kTRT ∧ provider_config = none) ∨
    (GetSessionOptionsImpl env num_threads provider_str provider_config = Outcome.threw ∧
      (StringToProvider provider_str = Provider.kXnnpack ∨
        StringToProvider provider_str = Provider.kCUDA ∨
        StringToProvider provider_str = Provider.kTRT) ∧
      (env.attach_ok Provider.kXnnpack = false ∨ env.attach_ok Provider.kCUDA = false ∨
        env.attach_ok Provider.kTRT = false) ∧
      ¬ (StringToProvider provider_str = Provider.kTRT ∧ provider_config = none)) ∨
    ((∃ o, GetSessionOptionsImpl env num_threads provider_str provider_config =
        Outcome.returned o) ∧
      ¬ (StringToProvider provider_str = Provider.kTRT ∧ provider_config = none)) := by
  cases hp : StringToProvider provider_str
  · right; right
    refine ⟨?_, by simp⟩
    simp only [GetSessionOptionsImpl, hp]
    exact ⟨_, rfl⟩
  · have h : GetSessionOptionsImpl env num_threads provider_str provider_config =
        caseCUDA env (cpuOnly num_threads) provider_config := by
      simp only [GetSessionOptionsImpl, hp]
      rfl
    rw [h]
    rcases caseCUDA_shape env (cpuOnly num_threads) provider_config with ⟨h1, h2⟩ | ⟨o, ho⟩
    · right; left
      exact ⟨h1, Or.inr (Or.inl rfl), Or.inr (Or.inl h2), by simp⟩
    · right; right
      exact ⟨⟨o, ho⟩, by simp⟩
  · right; right
    refine ⟨?_, by simp⟩
    simp only [GetSessionOptionsImpl, hp]
    split <;> exact ⟨_, rfl⟩
  · simp only [GetSessionOptionsImpl, hp, AppendExecutionProvider]
    by_cases h1 : env.ort_api_version_ge_12 = true
    · rw [if_pos h1]
      by_cases h2 : "XnnpackExecutionProvider".toList ∈ env.available_providers
      · rw [if_pos h2]
        by_cases hok : env.attach_ok Provider.kXnnpack = true
        · rw [if_pos hok]
          right; right
          exact ⟨⟨_, rfl⟩, by simp⟩
        · rw [if_neg hok]
          right; left
          exact ⟨rfl, Or.inl trivial, Or.inl (by simpa using hok), by simp⟩
      · rw [if_neg h2]
        right; right
        exact ⟨⟨_, rfl⟩, by simp⟩
    · rw [if_neg h1]
      right; right
      exact ⟨⟨_, rfl⟩, by simp⟩
  · right; right
    refine ⟨?_, by simp⟩
    simp only [GetSessionOptionsImpl, hp]
    split <;> exact ⟨_, rfl⟩
  · cases provider_config with
    | none =>
      left
      refine ⟨?_, rfl, rfl⟩
      simp only [GetSessionOptionsImpl, hp]
    | some cfg =>
      rw [GetSessionOptionsImpl_trt env num_threads provider_str cfg hp]
      by_cases h1 : "TensorrtExecutionProvider".toList ∈ env.available_providers
      · rw [if_pos h1]
        by_cases hok : env.attach_ok Provider.kTRT = true
        · rw [if_pos hok]
          rcases caseCUDA_shape env
            { cpuOnly num_threads with
              providers := [AttachedProvider.TensorRT (trt_options cfg)] }
            (some cfg) with ⟨h2, h3⟩ | ⟨o, ho⟩
          · right; left
            exact ⟨h2, Or.inr (Or.inr rfl), Or.inr (Or.inl h3), by simp⟩
          · right; right
            exact ⟨⟨o, ho⟩, by simp⟩
        · rw [if_neg hok]
          right; left
          exact ⟨rfl, Or.inr (Or.inr rfl), Or.inr (Or.inr (by simpa using hok)), by simp⟩
      · rw [if_neg h1]
        rcases caseCUDA_shape env (cpuOnly num_threads) (some cfg) with ⟨h2, h3⟩ | ⟨o, ho⟩
        · right; left
          exact ⟨h2, Or.inr (Or.inr rfl), Or.inr (Or.inl h3), by simp⟩
        · right; right
          exact ⟨⟨o, ho⟩, by simp⟩
  · right; right
    refine ⟨?_, by simp⟩
    simp only [GetSessionOptionsImpl, hp]
    split <;> exact ⟨_, rfl⟩
  · right; right
    refine ⟨?_, by simp⟩
    simp only [GetSessionOptionsImpl, hp]
    exact caseQNN_returns env _ provider_config

theorem GetSessionOptionsImpl_exited_iff (env : Env) (num_threads : Int) (provider_str : Str)
    (provider_config : Option ProviderConfig) (code : Nat) :
    GetSessionOptionsImpl env num_threads provider_str provider_config =
        Outcome.exited code ↔
      StringToProvider provider_str = Provider.kTRT ∧ provider_config = none ∧ code = 1 := by
  have hshape := GetSessionOptionsImpl_shape env num_threads provider_str provider_config
  constructor
  · intro h
    rcases hshape with ⟨h1, h2, h3⟩ | ⟨h1, _⟩ | ⟨⟨o, h1⟩, _⟩
    · rw [h1] at h
      simp only [Outcome.exited.injEq] at h
      exact ⟨h2, h3, h.symm⟩
    · rw [h1] at h
      exact absurd h (by simp)
    · rw [h1] at h
      exact absurd h (by simp)
  · rintro ⟨h1, h2, h3⟩
    rcases hshape with ⟨h4, _⟩ | ⟨_, _, _, h4⟩ | ⟨_, h4⟩
    · rw [h4, h3]
    · exact absurd ⟨h1, h2⟩ h4
    · exact absurd ⟨h1, h2⟩ h4

/-- C17: `GetSessionOptions(OfflineTtsModelConfig)` hands the provider config to
`GetSessionOptionsImpl` exactly when the provider is "qnn" with a non-empty `json_config`,
or "trt" or "cuda" with a device other than 0, and a null config otherwise. So for provider
"trt" the call ends with `exit(1)` if and only if the device is 0, and for provider "qnn"
with an empty `json_config` it returns the CPU-only session options on every machine. -/
theorem GetSessionOptions_OfflineTtsModelConfig_forwarding {Vits Matcha Kokoro : Type}
    (env : Env) (config : OfflineTtsModelConfig Vits Matcha Kokoro) :
    (((config.provider = "qnn".toList ∧
          config.provider_config.qnn_config.json_config ≠ []) ∨
        ((config.provider = "trt".toList ∨ config.provider = "cuda".toList) ∧
          config.provider_config.device ≠ 0)) →
      GetSessionOptions_OfflineTtsModelConfig env config =
        GetSessionOptionsImpl env config.num_threads config.provider
          (some config.provider_config)) ∧
    (¬ ((config.provider = "qnn".toList ∧
          config.provider_config.qnn_config.json_config ≠ []) ∨
        ((config.provider = "trt".toList ∨ config.provider = "cuda".toList) ∧
          config.provider_config.device ≠ 0)) →
      GetSessionOptions_OfflineTtsModelConfig env config =
        GetSessionOptionsImpl env config.num_threads config.provider none) ∧
    (config.provider = "trt".toList →
      (GetSessionOptions_OfflineTtsModelConfig env config = Outcome.exited 1 ↔
        config.provider_config.device = 0)) ∧
    (config.provider = "qnn".toList → config.provider_config.qnn_config.json_config = [] →
      GetSessionOptions_OfflineTtsModelConfig env config =
        Outcome.returned (cpuOnly config.num_threads)) := by
  have hfwd : ((config.provider = "qnn".toList ∧
          config.provider_config.qnn_config.json_config ≠ []) ∨
        ((config.provider = "trt".toList ∨ config.provider = "cuda".toList) ∧
          config.provider_config.device ≠ 0)) →
      GetSessionOptions_OfflineTtsModelConfig env config =
        GetSessionOptionsImpl env config.num_threads config.provider
          (some config.provider_config) := by
    intro h
    simp only [GetSessionOptions_OfflineTtsModelConfig]
    by_cases h1 : config.provider = "qnn".toList ∧
        config.provider_config.qnn_config.json_config ≠ []
    · rw [if_pos h1]
    · rw [if_neg h1]
      rcases h with h | h
      · exact absurd h h1
      · rw [if_pos h]
  have hnull : ¬ ((config.provider = "qnn".toList ∧
          config.provider_config.qnn_config.json_config ≠ []) ∨
        ((config.provider = "trt".toList ∨ config.provider = "cuda".toList) ∧
          config.provider_config.device ≠ 0)) →
      GetSessionOptions_OfflineTtsModelConfig env config =
        GetSessionOptionsImpl env config.num_threads config.provider none := by
    intro h
    simp only [GetSessionOptions_OfflineTtsModelConfig]
    rw [if_neg (fun h1 => h (Or.inl h1)), if_neg (fun h2 => h (Or.inr h2))]
  refine ⟨hfwd, hnull, ?_, ?_⟩
  · intro hp
    have htrt : StringToProvider config.provider = Provider.kTRT := by
      rw [hp]
      decide
    constructor
    · intro hex
      by_contra hd
      rw [hfwd (Or.inr ⟨Or.inl hp, hd⟩)] at hex
      have := (GetSessionOptionsImpl_exited_iff env config.num_threads config.provider
        (some config.provider_config) 1).1 hex
      exact absurd this.2.1 (by simp)
    · intro hd
      have hne : ¬ ((config.provider = "qnn".toList ∧
          config.provider_config.qnn_config.json_config ≠ []) ∨
        ((config.provider = "trt".toList ∨ config.provider = "cuda".toList) ∧
          config.provider_config.device ≠ 0)) := by
        rintro (⟨h1, _⟩ | ⟨_, h2⟩)
        · rw [hp] at h1
          exact absurd h1 (by decide)
        · exact h2 hd
      rw [hnull hne]
      exact (GetSessionOptionsImpl_exited_iff env config.num_threads config.provider
        none 1).2 ⟨htrt, rfl, rfl⟩
  · intro hp hj
    have hqnn : StringToProvider config.provider = Provider.kQNN := by
      rw [hp]
      decide
    have hne : ¬ ((config.provider = "qnn".toList ∧
        config.provider_config.qnn_config.json_config ≠ []) ∨
      ((config.provider = "trt".toList ∨ config.provider = "cuda".toList) ∧
        config.provider_config.device ≠ 0)) := by
      rintro (⟨_, h1⟩ | ⟨h2, _⟩)
      · exact h1 hj
      · rw [hp] at h2
        rcases h2 with h2 | h2 <;> exact absurd h2 (by decide)
    rw [hnull hne]
    simp only [GetSessionOptionsImpl, hqnn, caseQNN]
    rfl

/-- Witness for C17: provider "trt" with device 0 exits, and provider "qnn" without a blob
returns the CPU-only options on a machine with TensorRT and CUDA. -/
theorem GetSessionOptions_OfflineTtsModelConfig_forwarding_witness :
    GetSessionOptions_OfflineTtsModelConfig envTrtCuda
        (sampleTts [] [] "trt".toList (sampleConfig "trt".toList [])) = Outcome.exited 1 ∧
    GetSessionOptions_OfflineTtsModelConfig envTrtCuda
        (sampleTts [] [] "qnn".toList (sampleConfig "qnn".toList [])) =
      Outcome.returned (cpuOnly 2) :=
  ⟨((GetSessionOptions_OfflineTtsModelConfig_forwarding envTrtCuda
      (sampleTts [] [] "trt".toList (sampleConfig "trt".toList []))).2.2.1 rfl).2 rfl,
   (GetSessionOptions_OfflineTtsModelConfig_forwarding envTrtCuda
      (sampleTts [] [] "qnn".toList (sampleConfig "qnn".toList []))).2.2.2 rfl rfl⟩

/-! ### `QnnConfig::Validate`: stray colons and commas -/

theorem scanLoop_append (a b : Str) :
    ∀ st : Scan, scanLoop (a ++ b) st = (scanLoop a st).bind (scanLoop b) := by
  induction a with
  | nil => intro st; rfl
  | cons c cs ih =>
    intro st
    simp only [List.cons_append, scanLoop]
    split_ifs <;> first | rfl | exact ih _

/-- C13: `QnnConfig::Validate` rejects structurally malformed input. For every brace-bounded
blob, if the scan of the body reaches, outside quotes, a colon while in the VALUE state or a
comma while in the KEY state, `Validate` returns false; the blobs `{"a":"b":"c"}` and `{,}`
are rejected. -/
theorem QnnConfig_Validate_rejects_malformed (pre post : Str) (c : Char) (st : Scan)
    (hscan : scanLoop pre Scan.init = some st) (hunquoted : st.in_string = false)
    (hc : (c = ':' ∧ st.state = State.VALUE) ∨ (c = ',' ∧ st.state = State.KEY)) :
    QnnConfig.Validate ⟨'{' :: (pre ++ c :: post) ++ ['}']⟩ = false := by
  have hnone : scanLoop (c :: post) st = none := by
    rcases hc with ⟨hc, hs⟩ | ⟨hc, hs⟩
    · subst hc
      rw [scanLoop, if_neg (by decide), if_neg (by simp), if_neg (by simp [hunquoted]),
        if_pos rfl, if_pos (by simp [hs])]
    · subst hc
      rw [scanLoop, if_neg (by decide), if_neg (by simp), if_neg (by simp [hunquoted]),
        if_neg (by decide), if_pos rfl, if_pos (by simp [hs])]
  rw [Validate_braced, scanLoop_append, hscan]
  simp only [Option.some_bind, hnone]
  rfl

/-- Witness for C13: the blobs `{"a":"b":"c"}` and `{,}`. -/
theorem QnnConfig_Validate_rejects_malformed_witness :
    QnnConfig.Validate ⟨"\x7b\"a\":\"b\":\"c\"\x7d".toList⟩ = false ∧
    QnnConfig.Validate ⟨"\x7b,\x7d".toList⟩ = false :=
  ⟨QnnConfig_Validate_rejects_malformed "\"a\":\"b\"".toList "\"c\"".toList ':'
      ⟨false, "a".toList, [], "b".toList, State.VALUE⟩ (by decide) rfl (Or.inl ⟨rfl, rfl⟩),
   QnnConfig_Validate_rejects_malformed [] [] ',' Scan.init (by decide) rfl
      (Or.inr ⟨rfl, rfl⟩)⟩

/-! ### Termination and ranges of the option parser -/

theorem find_getElem? {s : Str} {c : Char} {pos i : Nat} (h : find s c pos = some i) :
    s[i]? = some c := by
  unfold find at h
  split at h
  · next hlt =>
    simp only [Option.some.injEq] at h
    subst h
    rw [← List.getElem?_drop, List.getElem?_eq_getElem hlt, List.getElem_indexOf hlt]
  · exact absurd h (by simp)

theorem substr_in_range (s : Str) (pos len : Nat) (h : pos ≤ s.length) :
    substr s pos len = some ((s.drop pos).take len) := by
  unfold substr
  rw [if_neg (by omega)]

theorem parseLoop_total (content : Str) :
    ∀ (n pos : Nat) (options : Options), content.length - pos = n →
      ∃ m, ∀ fuel, content.length - pos < fuel →
        parseLoop fuel content pos options = ParseResult.ok m := by
  intro n
  induction n using Nat.strong_induction_on with
  | _ n ih =>
    intro pos options hn
    have brk : ∀ m : Options,
        (∀ fuel, parseLoop (fuel + 1) content pos options = ParseResult.ok m) →
        ∃ m, ∀ fuel, content.length - pos < fuel →
          parseLoop fuel content pos options = ParseResult.ok m := by
      intro m hm
      refine ⟨m, fun fuel hf => ?_⟩
      obtain ⟨f, rfl⟩ : ∃ f, fuel = f + 1 := ⟨fuel - 1, by omega⟩
      exact hm f
    by_cases hpos : pos < content.length
    · cases h1 : find content '"' pos with
      | none => exact brk options (fun f => by rw [parseLoop, if_pos hpos]; simp only [h1])
      | some ks =>
        cases h2 : find content '"' (ks + 1) with
        | none => exact brk options (fun f => by rw [parseLoop, if_pos hpos]; simp only [h1, h2])
        | some ke =>
          cases h3 : find content ':' ke with
          | none =>
            exact brk options (fun f => by rw [parseLoop, if_pos hpos]; simp only [h1, h2, h3])
          | some co =>
            cases h4 : find content '"' co with
            | none =>
              exact brk options
                (fun f => by rw [parseLoop, if_pos hpos]; simp only [h1, h2, h3, h4])
            | some vs =>
              cases h5 : find content '"' (vs + 1) with
              | none =>
                exact brk options
                  (fun f => by rw [parseLoop, if_pos hpos]; simp only [h1, h2, h3, h4, h5])
              | some ve =>
                have hs1 := substr_in_range content (ks + 1) (ke - ks - 1)
                  (by have := find_lt_length h1; omega)
                have hs2 := substr_in_range content (vs + 1) (ve - vs - 1)
                  (by have := find_lt_length h4; omega)
                cases h6 : find content ',' ve with
                | none =>
                  exact brk
                    (options.set ((content.drop (ks + 1)).take (ke - ks - 1))
                      ((content.drop (vs + 1)).take (ve - vs - 1)))
                    (fun f => by
                      rw [parseLoop, if_pos hpos]
                      simp only [h1, h2, h3, h4, h5, h6, hs1, hs2])
                | some np =>
                  have hlt : content.length - (np + 1) < n := by
                    have := find_ge h1
                    have := find_ge h2
                    have := find_ge h3
                    have := find_ge h4
                    have := find_ge h5
                    have := find_ge h6
                    omega
                  obtain ⟨m, hm⟩ := ih _ hlt (np + 1)
                    (options.set ((content.drop (ks + 1)).take (ke - ks - 1))
                      ((content.drop (vs + 1)).take (ve - vs - 1))) rfl
                  refine ⟨m, fun fuel hf => ?_⟩
                  obtain ⟨f, rfl⟩ : ∃ f, fuel = f + 1 := ⟨fuel - 1, by omega⟩
                  rw [parseLoop, if_pos hpos]
                  simp only [h1, h2, h3, h4, h5, h6, hs1, hs2]
                  exact hm f (by omega)
    · exact brk options (fun f => by rw [parseLoop, if_neg hpos])

theorem braces_length (json_config : Str) (h1 : json_config.head? = some '{')
    (h2 : json_config.getLast? = some '}') : 2 ≤ json_config.length := by
  match json_config, h1, h2 with
  | [c], h1, h2 =>
    simp only [List.head?_cons, Option.some.injEq] at h1
    subst h1
    exact absurd h2 (by decide)
  | _ :: _ :: _, _, _ => simp

/-- C19: the option-parsing loop of the QNN branch terminates on every input. From every
position the loop ends with a map, the same for every sufficient iteration budget. In an
iteration that does not break, the positions satisfy
`pos <= key_start < key_end <= colon < value_start < value_end < new pos <= size`, and both
`substr` calls are in range. The outer braces are stripped only from blobs of length at least
two, in range as well, so the whole parse of any blob ends with a map. -/
theorem QNN_option_parser_terminates (content : Str) :
    (∀ (pos : Nat) (options : Options), ∃ m, ∀ fuel, content.length - pos < fuel →
      parseLoop fuel content pos options = ParseResult.ok m) ∧
    (∀ pos key_start key_end colon value_start value_end comma : Nat,
      find content '"' pos = some key_start →
      find content '"' (key_start + 1) = some key_end →
      find content ':' key_end = some colon →
      find content '"' colon = some value_start →
      find content '"' (value_start + 1) = some value_end →
      find content ',' value_end = some comma →
      (pos ≤ key_start ∧ key_start < key_end ∧ key_end ≤ colon ∧ colon < value_start ∧
        value_start < value_end ∧ value_end < comma + 1 ∧ pos < comma + 1 ∧
        comma + 1 ≤ content.length) ∧
      substr content (key_start + 1) (key_end - key_start - 1) =
        some ((content.drop (key_start + 1)).take (key_end - key_start - 1)) ∧
      substr content (value_start + 1) (value_end - value_start - 1) =
        some ((content.drop (value_start + 1)).take (value_end - value_start - 1))) ∧
    (content.head? = some '{' → content.getLast? = some '}' →
      2 ≤ content.length ∧
      substr content 1 (content.length - 2) =
        some ((content.drop 1).take (content.length - 2))) ∧
    (∃ m, parseQnnOptions content = ParseResult.ok m) := by
  refine ⟨?_, ?_, ?_, ?_⟩
  · intro pos options
    exact parseLoop_total content _ pos options rfl
  · intro pos ks ke co vs ve np h1 h2 h3 h4 h5 h6
    have g1 := find_ge h1
    have g2 := find_ge h2
    have g3 := find_ge h3
    have g4 := find_ge h4
    have g5 := find_ge h5
    have g6 := find_ge h6
    have l1 := find_lt_length h1
    have l4 := find_lt_length h4
    have l6 := find_lt_length h6
    have hne : co ≠ vs := by
      intro he
      have e3 := find_getElem? h3
      have e4 := find_getElem? h4
      rw [he, e4] at e3
      exact absurd e3 (by decide)
    refine ⟨⟨g1, by omega, g3, by omega, by omega, by omega, by omega, by omega⟩,
      substr_in_range _ _ _ (by omega), substr_in_range _ _ _ (by omega)⟩
  · intro h1 h2
    have hlen := braces_length content h1 h2
    exact ⟨hlen, substr_in_range _ _ _ (by omega)⟩
  · unfold parseQnnOptions
    split
    · next h =>
      have hlen := braces_length content h.1 h.2
      rw [substr_in_range _ _ _ (by omega)]
      obtain ⟨m, hm⟩ := parseLoop_total ((content.drop 1).take (content.length - 2)) _ 0 []
        rfl
      exact ⟨m, hm _ (by omega)⟩
    · exact ⟨_, rfl⟩

/-- Witness for C19: the body `"a":"b","c":"d"` from position 0, whose first iteration
finds the positions 0, 2, 3, 4, 6 and the comma at 7. -/
theorem QNN_option_parser_terminates_witness :
    ((0 ≤ 0 ∧ 0 < 2 ∧ 2 ≤ 3 ∧ 3 < 4 ∧ 4 < 6 ∧ 6 < 7 + 1 ∧ 0 < 7 + 1 ∧
        7 + 1 ≤ "\"a\":\"b\",\"c\":\"d\"".toList.length) ∧
      substr "\"a\":\"b\",\"c\":\"d\"".toList (0 + 1) (2 - 0 - 1) =
        some (("\"a\":\"b\",\"c\":\"d\"".toList.drop (0 + 1)).take (2 - 0 - 1)) ∧
      substr "\"a\":\"b\",\"c\":\"d\"".toList (4 + 1) (6 - 4 - 1) =
        some (("\"a\":\"b\",\"c\":\"d\"".toList.drop (4 + 1)).take (6 - 4 - 1))) ∧
    (2 ≤ "\x7b\x7d".toList.length ∧
      substr "\x7b\x7d".toList 1 ("\x7b\x7d".toList.length - 2) =
        some (("\x7b\x7d".toList.drop 1).take ("\x7b\x7d".toList.length - 2))) :=
  ⟨(QNN_option_parser_terminates "\"a\":\"b\",\"c\":\"d\"".toList).2.1 0 0 2 3 4 6 7
      (by decide) (by decide) (by decide) (by decide) (by decide) (by decide),
   (QNN_option_parser_terminates "\x7b\x7d".toList).2.2.1 (by decide) (by decide)⟩

/-! ### `QnnConfig::Validate`: which nested values are rejected -/

theorem scanLoop_whitespace (ws : Str) (hws : ∀ c ∈ ws, c ∈ whitespace) (rest : Str)
    (key value tok : Str) (state : State) :
    scanLoop (ws ++ rest) ⟨false, key, value, tok, state⟩ =
      scanLoop rest ⟨false, key, value, tok, state⟩ := by
  induction ws with
  | nil => rfl
  | cons c cs ih =>
    have hc : c ∈ whitespace := hws c (List.mem_cons_self _ _)
    have hcs : ∀ x ∈ cs, x ∈ whitespace := fun x hx => hws x (List.mem_cons_of_mem _ hx)
    have hc' : c = ' ' ∨ c = '\t' ∨ c = '\n' ∨ c = '\r' := by
      simpa [whitespace] using hc
    have hq : c ≠ '"' := by
      rcases hc' with h | h | h | h <;> subst h <;> decide
    rw [List.cons_append, scanLoop, if_neg hq, if_pos ⟨rfl, hc'⟩]
    exact ih hcs

theorem scanLoop_in_string_parity (u : Str) :
    ∀ st st' : Scan, scanLoop u st = some st' →
      st'.in_string = if u.count '"' % 2 = 0 then st.in_string else !st.in_string := by
  induction u with
  | nil =>
    intro st st' h
    simp only [scanLoop, Option.some.injEq] at h
    subst h
    simp
  | cons c cs ih =>
    intro st st' h
    rw [scanLoop] at h
    by_cases hq : c = '"'
    · subst hq
      rw [if_pos rfl] at h
      have := ih _ _ h
      rw [this, List.count_cons_self]
      by_cases hp : cs.count '"' % 2 = 0
      · have hp' : ¬ (cs.count '"' + 1) % 2 = 0 := by omega
        rw [if_pos hp, if_neg hp']
      · have hp' : (cs.count '"' + 1) % 2 = 0 := by omega
        rw [if_neg hp, if_pos hp']
        simp
    · rw [if_neg hq] at h
      have hcount : (c :: cs).count '"' = cs.count '"' := List.count_cons_of_ne (Ne.symm hq) cs
      rw [hcount]
      split_ifs at h <;> (have h' := ih _ _ h; exact h')

theorem scanLoop_doomed (w : Str) :
    ∀ st : Scan, st.state = State.VALUE →
      (∀ s : Str, checkKeyValue st.key (st.current_token ++ s) = false) →
      (st.current_token ≠ [] ∨ ∃ c ∈ w, c ≠ '"' ∧ c ∉ whitespace) →
      handleLastPair (scanLoop w st) = false := by
  induction w with
  | nil =>
    intro st _ hbad htok
    rcases htok with htok | ⟨c, hc, _⟩
    · have := hbad []
      rw [List.append_nil] at this
      simp only [scanLoop, handleLastPair, if_pos htok, this]
    · exact absurd hc (List.not_mem_nil c)
  | cons c cs ih =>
    intro st hstate hbad htok
    have hrest : c = '"' ∨ c ∈ whitespace →
        (st.current_token ≠ [] ∨ ∃ x ∈ cs, x ≠ '"' ∧ x ∉ whitespace) := by
      intro hc
      rcases htok with htok | ⟨x, hx, hx1, hx2⟩
      · exact Or.inl htok
      · rcases List.mem_cons.1 hx with rfl | hx
        · rcases hc with hc | hc
          · exact absurd hc hx1
          · exact absurd hc hx2
        · exact Or.inr ⟨x, hx, hx1, hx2⟩
    have happ : ∀ s : Str,
        checkKeyValue st.key ((st.current_token ++ [c]) ++ s) = false := by
      intro s
      rw [List.append_assoc]
      exact hbad _
    rw [scanLoop]
    by_cases h1 : c = '"'
    · rw [if_pos h1]
      exact ih _ hstate hbad (hrest (Or.inl h1))
    · rw [if_neg h1]
      by_cases h2 : st.in_string = false ∧ (c = ' ' ∨ c = '\t' ∨ c = '\n' ∨ c = '\r')
      · rw [if_pos h2]
        exact ih _ hstate hbad (hrest (Or.inr (by simpa [whitespace] using h2.2)))
      · rw [if_neg h2]
        by_cases h3 : st.in_string = true
        · rw [if_pos h3]
          exact ih _ hstate happ (Or.inl (by simp))
        · rw [if_neg h3]
          by_cases h4 : c = ':'
          · rw [if_pos h4, if_pos (by rw [hstate]; decide)]
            rfl
          · rw [if_neg h4]
            by_cases h5 : c = ','
            · have hb := hbad []
              rw [List.append_nil] at hb
              rw [if_pos h5, if_neg (by rw [hstate]; decide), if_pos hb]
              rfl
            · rw [if_neg h5]
              exact ih _ hstate happ (Or.inl (by simp))

theorem lookup_some_mem (l : List (Str × List Str)) (k : Str) (vals : List Str)
    (h : l.lookup k = some vals) : (k, vals) ∈ l := by
  induction l with
  | nil => simp at h
  | cons p es ih =>
    obtain ⟨a, b⟩ := p
    by_cases hk : k = a
    · subst hk
      simp only [List.lookup_cons_self, Option.some.injEq] at h
      subst h
      exact List.mem_cons_self _ _
    · have hb : (k == a) = false := by simpa using hk
      simp only [List.lookup, hb] at h
      exact List.mem_cons_of_mem _ (ih h)

theorem checkKeyValue_of_brace_in_key (key value : Str) (h : '{' ∈ key) :
    checkKeyValue key value = false := by
  have hkeys : ∀ kv ∈ valid_options, '{' ∉ kv.1 := by decide
  unfold checkKeyValue
  cases hl : valid_options.lookup key with
  | none => rfl
  | some vals => exact absurd h (hkeys _ (lookup_some_mem _ _ _ hl))

theorem checkKeyValue_of_bracket_value (k s : Str) (b : Char)
    (hk : valid_options.lookup k ≠ some []) (hb : b = '{' ∨ b = '[') :
    checkKeyValue k (b :: s) = false := by
  have hvals : ∀ kv ∈ valid_options, ∀ v ∈ kv.2, v.head? ≠ some '{' ∧ v.head? ≠ some '[' := by
    decide
  unfold checkKeyValue
  cases hl : valid_options.lookup k with
  | none => rfl
  | some vals =>
    have hne : vals ≠ [] := fun e => hk (by rw [hl, e])
    have hnot : b :: s ∉ vals := by
      intro hmem
      have := hvals _ (lookup_some_mem _ _ _ hl) _ hmem
      rcases hb with hb | hb <;> subst hb
      · exact this.1 rfl
      · exact this.2 rfl
    simp only [hl]
    rw [if_pos ⟨hne, hnot⟩]

theorem Validate_rejects_member_after_pairs (pre : List (Str × Str)) (k a tail : Str)
    (hpre : quoteFree pre) (hk : '"' ∉ k) (ha : '"' ∉ a) :
    QnnConfig.Validate
      ⟨'{' :: (renderPairsComma pre ++ (quoted k ++ ':' :: '{' :: (quoted a ++ ':' :: tail)))
        ++ ['}']⟩ = false := by
  rw [Validate_braced]
  have hnested : ∀ key value : Str,
      scanLoop (quoted k ++ ':' :: '{' :: (quoted a ++ ':' :: tail))
        ⟨false, key, value, [], State.KEY⟩ = none := by
    intro key value
    rw [scanLoop_quoted k hk, List.nil_append, scanLoop_colon, scanLoop, if_neg (by decide),
      if_neg (by simp), if_neg (by simp), if_neg (by decide), if_neg (by decide),
      scanLoop_quoted a ha, scanLoop, if_neg (by decide), if_neg (by simp), if_neg (by simp),
      if_pos rfl, if_pos (by simp)]
  rcases scanLoop_renderPairsComma pre hpre
    (quoted k ++ ':' :: '{' :: (quoted a ++ ':' :: tail)) [] [] with h | ⟨key', value', h⟩
  · rw [Scan.init, h]
    rfl
  · rw [Scan.init, h, hnested]
    rfl

theorem Validate_rejects_bracket_on_closed_key (pre : List (Str × Str))
    (k ws1 ws2 tail : Str) (b : Char) (hpre : quoteFree pre) (hk : '"' ∉ k)
    (hclosed : valid_options.lookup k ≠ some []) (hb : b = '{' ∨ b = '[')
    (hws1 : ∀ c ∈ ws1, c ∈ whitespace) (hws2 : ∀ c ∈ ws2, c ∈ whitespace) :
    QnnConfig.Validate
      ⟨'{' :: (renderPairsComma pre ++ (quoted k ++ (ws1 ++ ':' :: (ws2 ++ b :: tail))))
        ++ ['}']⟩ = false := by
  rw [Validate_braced]
  have hvalue : ∀ key value : Str,
      handleLastPair (scanLoop (quoted k ++ (ws1 ++ ':' :: (ws2 ++ b :: tail)))
        ⟨false, key, value, [], State.KEY⟩) = false := by
    intro key value
    have hb1 : b ≠ '"' := by rcases hb with h | h <;> subst h <;> decide
    have hb2 : ¬ ((false : Bool) = false ∧ (b = ' ' ∨ b = '\t' ∨ b = '\n' ∨ b = '\r')) := by
      rcases hb with h | h <;> subst h <;> decide
    have hb3 : b ≠ ':' := by rcases hb with h | h <;> subst h <;> decide
    have hb4 : b ≠ ',' := by rcases hb with h | h <;> subst h <;> decide
    rw [scanLoop_quoted k hk, List.nil_append, scanLoop_whitespace ws1 hws1, scanLoop_colon,
      scanLoop_whitespace ws2 hws2, scanLoop, if_neg hb1, if_neg hb2, if_neg (by simp),
      if_neg hb3, if_neg hb4]
    apply scanLoop_doomed tail _ rfl
    · intro s
      exact checkKeyValue_of_bracket_value k s b hclosed hb
    · exact Or.inl (by simp)
  rcases scanLoop_renderPairsComma pre hpre
    (quoted k ++ (ws1 ++ ':' :: (ws2 ++ b :: tail))) [] [] with h | ⟨key', value', h⟩
  · rw [Scan.init, h]
    rfl
  · rw [Scan.init, h]
    exact hvalue key' value'

theorem Validate_rejects_bracket_after_scan (u k ws1 ws2 tail : Str) (b : Char)
    (hu : ∀ st : Scan, scanLoop u Scan.init = some st →
      st.in_string = false ∧ st.current_token = [] ∧ st.state = State.KEY)
    (hk : '"' ∉ k) (hclosed : valid_options.lookup k ≠ some []) (hb : b = '{' ∨ b = '[')
    (hws1 : ∀ c ∈ ws1, c ∈ whitespace) (hws2 : ∀ c ∈ ws2, c ∈ whitespace) :
    QnnConfig.Validate
      ⟨'{' :: (u ++ (quoted k ++ (ws1 ++ ':' :: (ws2 ++ b :: tail)))) ++ ['}']⟩ = false := by
  rw [Validate_braced, scanLoop_append]
  cases hscan : scanLoop u Scan.init with
  | none => rfl
  | some st =>
    obtain ⟨h1, h2, h3⟩ := hu st hscan
    obtain ⟨in_string, key, value, tok, state⟩ := st
    simp only at h1 h2 h3
    subst h1 h2 h3
    have hb1 : b ≠ '"' := by rcases hb with h | h <;> subst h <;> decide
    have hb2 : ¬ ((false : Bool) = false ∧ (b = ' ' ∨ b = '\t' ∨ b = '\n' ∨ b = '\r')) := by
      rcases hb with h | h <;> subst h <;> decide
    have hb3 : b ≠ ':' := by rcases hb with h | h <;> subst h <;> decide
    have hb4 : b ≠ ',' := by rcases hb with h | h <;> subst h <;> decide
    simp only [Option.some_bind]
    rw [scanLoop_quoted k hk, List.nil_append, scanLoop_whitespace ws1 hws1, scanLoop_colon,
      scanLoop_whitespace ws2 hws2, scanLoop, if_neg hb1, if_neg hb2, if_neg (by simp),
      if_neg hb3, if_neg hb4]
    apply scanLoop_doomed tail _ rfl
    · intro s
      exact checkKeyValue_of_bracket_value k s b hclosed hb
    · exact Or.inl (by simp)

theorem Validate_rejects_member_anywhere (u a ws1 ws2 w : Str)
    (hu : u.count '"' % 2 = 0) (ha : '"' ∉ a)
    (hws1 : ∀ c ∈ ws1, c ∈ whitespace) (hws2 : ∀ c ∈ ws2, c ∈ whitespace)
    (hw : ∃ c ∈ w, c ≠ '"' ∧ c ∉ whitespace) :
    QnnConfig.Validate
      ⟨'{' :: (u ++ '{' :: (ws1 ++ (quoted a ++ (ws2 ++ ':' :: w)))) ++ ['}']⟩ = false := by
  rw [Validate_braced, scanLoop_append]
  cases hscan : scanLoop u Scan.init with
  | none => rfl
  | some st =>
    have hin : st.in_string = false := by
      have := scanLoop_in_string_parity u _ _ hscan
      rw [if_pos hu] at this
      exact this
    obtain ⟨in_string, key, value, tok, state⟩ := st
    simp only at hin
    subst hin
    simp only [Option.some_bind]
    rw [scanLoop, if_neg (by decide), if_neg (by simp), if_neg (by simp), if_neg (by decide),
      if_neg (by decide), scanLoop_whitespace ws1 hws1, scanLoop_quoted a ha,
      scanLoop_whitespace ws2 hws2, scanLoop, if_neg (by decide), if_neg (by simp),
      if_neg (by simp), if_pos rfl]
    by_cases hstate : state = State.KEY
    · subst hstate
      rw [if_neg (by simp)]
      apply scanLoop_doomed w _ rfl
      · intro s
        exact checkKeyValue_of_brace_in_key _ _ (by simp)
      · exact Or.inr hw
    · rw [if_pos (by simpa using hstate)]
      rfl

/-- C7, amended: `QnnConfig::Validate` keeps no nesting depth, yet it rejects every nested
value except one without an object member on an open-domain key. It returns false
(1) when, after pairs of the quoted form, the value of a key that is not open-domain starts
with an opening brace or bracket, whatever follows;
(2) when the body holds, after an even number of double quotes, a nested object with a
member, that is an opening brace, a quoted member key and a colon, followed by some character
other than a double quote or whitespace, such as the closing brace;
(3) when, after pairs of the quoted form, the value of any key opens a nested object with a
member, whatever follows;
(4) as in (1), after any text that the scan leaves outside quotes, in the KEY state and with
an empty token, bare-token pairs included.
Whitespace around the colons is allowed in (1), (2) and (4). -/
theorem QnnConfig_Validate_rejects_nested_values (pre : List (Str × Str))
    (k a u w ws1 ws2 tail : Str) (b : Char) :
    (quoteFree pre → '"' ∉ k → valid_options.lookup k ≠ some [] → (b = '{' ∨ b = '[') →
      (∀ c ∈ ws1, c ∈ whitespace) → (∀ c ∈ ws2, c ∈ whitespace) →
      QnnConfig.Validate
        ⟨'{' :: (renderPairsComma pre ++ (quoted k ++ (ws1 ++ ':' :: (ws2 ++ b :: tail))))
          ++ ['}']⟩ = false) ∧
    (u.count '"' % 2 = 0 → '"' ∉ a →
      (∀ c ∈ ws1, c ∈ whitespace) → (∀ c ∈ ws2, c ∈ whitespace) →
      (∃ c ∈ w, c ≠ '"' ∧ c ∉ whitespace) →
      QnnConfig.Validate
        ⟨'{' :: (u ++ '{' :: (ws1 ++ (quoted a ++ (ws2 ++ ':' :: w)))) ++ ['}']⟩ = false) ∧
    (quoteFree pre → '"' ∉ k → '"' ∉ a →
      QnnConfig.Validate
        ⟨'{' :: (renderPairsComma pre ++
          (quoted k ++ ':' :: '{' :: (quoted a ++ ':' :: tail))) ++ ['}']⟩ = false) ∧
    ((∀ st : Scan, scanLoop u Scan.init = some st →
        st.in_string = false ∧ st.current_token = [] ∧ st.state = State.KEY) →
      '"' ∉ k → valid_options.lookup k ≠ some [] → (b = '{' ∨ b = '[') →
      (∀ c ∈ ws1, c ∈ whitespace) → (∀ c ∈ ws2, c ∈ whitespace) →
      QnnConfig.Validate
        ⟨'{' :: (u ++ (quoted k ++ (ws1 ++ ':' :: (ws2 ++ b :: tail)))) ++ ['}']⟩ = false) :=
  ⟨fun hpre hk hclosed hb hws1 hws2 =>
      Validate_rejects_bracket_on_closed_key pre k ws1 ws2 tail b hpre hk hclosed hb hws1 hws2,
   fun hu ha hws1 hws2 hw => Validate_rejects_member_anywhere u a ws1 ws2 w hu ha hws1 hws2 hw,
   fun hpre hk ha => Validate_rejects_member_after_pairs pre k a tail hpre hk ha,
   fun hu hk hclosed hb hws1 hws2 =>
      Validate_rejects_bracket_after_scan u k ws1 ws2 tail b hu hk hclosed hb hws1 hws2⟩

/-- Witness for C7 (amended): the blobs `{"htp_arch":["0"]}`, `{"htp_arch":{}}`,
`{"backend_path":["x",{"a":1}]}`, `{"vtcm_mb":"8","backend_path":{"a":"b"}}` and
`{"vtcm_mb":8,"htp_arch" : [0]}`. -/
theorem QnnConfig_Validate_rejects_nested_values_witness :
    QnnConfig.Validate ⟨"\x7b\"htp_arch\":[\"0\"]\x7d".toList⟩ = false ∧
    QnnConfig.Validate ⟨"\x7b\"htp_arch\":\x7b\x7d\x7d".toList⟩ = false ∧
    QnnConfig.Validate ⟨"\x7b\"backend_path\":[\"x\",\x7b\"a\":1\x7d]\x7d".toList⟩ = false ∧
    QnnConfig.Validate
      ⟨"\x7b\"vtcm_mb\":\"8\",\"backend_path\":\x7b\"a\":\"b\"\x7d\x7d".toList⟩ = false ∧
    QnnConfig.Validate ⟨"\x7b\"vtcm_mb\":8,\"htp_arch\" : [0]\x7d".toList⟩ = false :=
  ⟨(QnnConfig_Validate_rejects_nested_values [] "htp_arch".toList [] [] [] [] []
      "\"0\"]".toList '[').1 (by decide) (by decide) (by decide) (by decide) (by decide)
      (by decide),
   (QnnConfig_Validate_rejects_nested_values [] "htp_arch".toList [] [] [] [] []
      "\x7d".toList '{').1 (by decide) (by decide) (by decide) (by decide) (by decide)
      (by decide),
   (QnnConfig_Validate_rejects_nested_values [] [] "a".toList
      "\"backend_path\":[\"x\",".toList "1\x7d]".toList [] [] [] 'x').2.1 (by decide)
      (by decide) (by decide) (by decide) (by decide),
   (QnnConfig_Validate_rejects_nested_values [("vtcm_mb".toList, "8".toList)]
      "backend_path".toList "a".toList [] [] [] [] "\"b\"\x7d".toList 'x').2.2.1 (by decide)
      (by decide) (by decide),
   (QnnConfig_Validate_rejects_nested_values [] "htp_arch".toList []
      "\"vtcm_mb\":8,".toList [] " ".toList " ".toList "0]".toList '[').2.2.2
      (by intro st h; have e : st = ⟨false, "vtcm_mb".toList, "8".toList, [], State.KEY⟩ :=
            Option.some.inj (h.symm.trans (by decide)); subst e; exact ⟨rfl, rfl, rfl⟩)
      (by decide) (by decide) (by decide) (by decide) (by decide)⟩

end SherpaOnnx
